import Mathlib

/-!
# Verification of the task scheduler of `canopen-util` (`CU_TASK.c`)

Shallow embedding of `CU_TASK_addTask` and `CU_TASK_update` together with the
data they work on (`taskEntries`, `taskEntriesRequested`).  The embeddings of
the CAN transaction layer (`KinetekUtil`) and of the command line
(`CU_COMMAND`) follow; the theorems that settle the claims of the
specification come after all definitions.

Modelling conventions
* C strings are Lean strings; `strcmp` returns `0` exactly on equal strings.
* `int32_t` / `uint32_t` values are `Int` / `Nat`; the scheduler performs no
  arithmetic on them.
* The static array `taskEntriesRequested` is passed explicitly (`RequestTable`).
* The task callbacks live in other translation units.  They are referred to by
  symbol (`InitCallback`, `UpdateCallback`) and their behaviour is a parameter
  (`Callbacks σ`) acting on an arbitrary external world `σ` (the
  `CU_TaskDetails` record, the bus, ...).  Callbacks are assumed not to call
  back into `CU_TASK_addTask`.
* `printf` output and the list of callback invocations are returned as values.
-/

namespace CU_TASK

/-! ## Data model -/

/-- Modelled from the spec: the enumeration `CU_TASK_STATUS` is declared in the
header `CU.h`, which is missing; the spec gives
`TaskStatus ∈ {NONE, PENDING, CONTINUE, DONE, ERROR}` and says the request table
is zero/NONE-initialised.  `OTHER raw` stands for any value of the C enum type
that is none of the five enumerators (a callback may return such a value). -/
inductive CU_TASK_STATUS where
  | NONE
  | PENDING
  | CONTINUE
  | DONE
  | ERROR
  | OTHER (raw : Int)
deriving DecidableEq, Repr

/-- Symbols of the `initCallback` functions stored in `taskEntries`. -/
inductive InitCallback where
  | CU_TASK_INFO_prepare
  | CU_TASK_PROGRAM_prepare
  | CU_TASK_RESET_prepare
deriving DecidableEq, Repr

/-- Symbols of the `updateCallback` functions stored in `taskEntries`. -/
inductive UpdateCallback where
  | CU_TASK_INFO_update
  | CU_TASK_PROGRAM_update
  | CU_TASK_RESET_update
deriving DecidableEq, Repr

/-- The struct `CU_TASK_Entry`: a task name and its two callbacks. -/
structure CU_TASK_Entry where
  taskName : String
  initCallback : InitCallback
  updateCallback : UpdateCallback
deriving DecidableEq, Repr

/-- The constant array `taskEntries`; its order is the order of execution. -/
def taskEntries : List CU_TASK_Entry :=
  [ ⟨"info", .CU_TASK_INFO_prepare, .CU_TASK_INFO_update⟩,
    ⟨"program", .CU_TASK_PROGRAM_prepare, .CU_TASK_PROGRAM_update⟩,
    ⟨"reset", .CU_TASK_RESET_prepare, .CU_TASK_RESET_update⟩ ]

/-- The constant `taskEntriesSize = sizeof(taskEntries) / sizeof(CU_TASK_Entry)`. -/
def taskEntriesSize : Nat := taskEntries.length

/-- The struct `CU_TASK_Requested`: state and option of one task. -/
structure CU_TASK_Requested where
  state : CU_TASK_STATUS
  option : Int
deriving DecidableEq, Repr

/-- The array `taskEntriesRequested`: one `CU_TASK_Requested` per entry of
`taskEntries`. -/
structure RequestTable where
  entries : List CU_TASK_Requested
  size_ok : entries.length = taskEntriesSize
deriving DecidableEq

/-- Read `taskEntriesRequested[i]`. -/
def RequestTable.get (t : RequestTable) (i : Nat) : CU_TASK_Requested :=
  t.entries.getD i ⟨.NONE, 0⟩

/-- Read `taskEntriesRequested[i].state`. -/
def RequestTable.state (t : RequestTable) (i : Nat) : CU_TASK_STATUS :=
  (t.get i).state

/-- The assignment `taskEntriesRequested[i].state = s`. -/
def RequestTable.setState (t : RequestTable) (i : Nat) (s : CU_TASK_STATUS) :
    RequestTable :=
  ⟨t.entries.set i { t.get i with state := s }, by
    rw [List.length_set]; exact t.size_ok⟩

/-- The request table at process start: zeroed static storage, that is every
state `NONE` and every option `0`. -/
def RequestTable.zeroed : RequestTable :=
  ⟨List.replicate taskEntriesSize ⟨.NONE, 0⟩, List.length_replicate _ _⟩

/-- Character-wise comparison behind `strcmp`: the first position where the two
strings differ (or where one of them ends) decides. -/
def strcmp_chars : List Char → List Char → Int
  | [], [] => 0
  | [], _ :: _ => -1
  | _ :: _, [] => 1
  | a :: as, b :: bs =>
      if a = b then strcmp_chars as bs else if a.toNat < b.toNat then -1 else 1

/-- The library function `strcmp`, up to the magnitude of a non-zero result. -/
def strcmp (a b : String) : Int :=
  strcmp_chars a.data b.data

/-! ## `CU_TASK_addTask` -/

/-- How a call of `CU_TASK_addTask` ends: by `return`, or by `exit(code)`.  Both
carry the request table at that point and the lines printed. -/
inductive AddTaskOutcome where
  | returned (tbl : RequestTable) (printed : List String)
  | exited (code : Int) (tbl : RequestTable) (printed : List String)
deriving DecidableEq

/-- The `for` loop of `CU_TASK_addTask`, at index `i` with the entries
`taskEntries[i..]` still to visit, and the code after the loop. -/
def CU_TASK_addTask_loop (request_task_name : String) (option : Int)
    (tbl : RequestTable) : List CU_TASK_Entry → Nat → AddTaskOutcome
  | [], _ =>
      .exited (-1) tbl ["Invalid argument passed: " ++ request_task_name ++ "\r\n"]
  | e :: rest, i =>
      if strcmp e.taskName request_task_name = 0 then
        if tbl.state i ≠ .PENDING then
          .returned (tbl.setState i .PENDING)
            ["Adding Task: " ++ request_task_name ++ "\r\n"]
        else
          .returned tbl []
      else
        CU_TASK_addTask_loop request_task_name option tbl rest (i + 1)

/-- The function `CU_TASK_addTask(request_task_name, option)`. -/
def CU_TASK_addTask (request_task_name : String) (option : Int)
    (tbl : RequestTable) : AddTaskOutcome :=
  CU_TASK_addTask_loop request_task_name option tbl taskEntries 0

/-! ## `CU_TASK_update` -/

/-- Behaviour of the external callbacks on the external world `σ`. -/
structure Callbacks (σ : Type) where
  init : InitCallback → σ → σ
  update : UpdateCallback → σ → Nat → CU_TASK_STATUS × σ

/-- One callback invocation made by the scheduler: which entry, which function,
and for an update callback the `time_diff_1ms` argument. -/
inductive Call where
  | init (i : Nat) (f : InitCallback)
  | update (i : Nat) (f : UpdateCallback) (time_diff_1ms : Nat)
deriving DecidableEq, Repr

/-- Result of one `CU_TASK_update` call: returned status, request table and
external world afterwards, and the callbacks invoked, in order. -/
structure UpdateResult (σ : Type) where
  status : CU_TASK_STATUS
  tbl : RequestTable
  world : σ
  calls : List Call

/-- The `for` loop of `CU_TASK_update`, at index `i` with the entries
`taskEntries[i..]` still to visit, and the `return` after the loop. -/
def CU_TASK_update_loop {σ : Type} (cb : Callbacks σ) (time_diff_1ms : Nat)
    (tbl : RequestTable) (world : σ) : List CU_TASK_Entry → Nat → UpdateResult σ
  | [], _ => ⟨.DONE, tbl, world, []⟩
  | e :: rest, i =>
      if tbl.state i = .PENDING then
        ⟨.CONTINUE, tbl.setState i .CONTINUE, cb.init e.initCallback world,
          [.init i e.initCallback]⟩
      else if tbl.state i = .CONTINUE then
        let r := cb.update e.updateCallback world time_diff_1ms
        if r.1 = .DONE then
          ⟨.DONE, tbl.setState i .DONE, r.2, [.update i e.updateCallback time_diff_1ms]⟩
        else if r.1 = .CONTINUE then
          ⟨.CONTINUE, tbl, r.2, [.update i e.updateCallback time_diff_1ms]⟩
        else
          ⟨.ERROR, tbl.setState i .ERROR, r.2, [.update i e.updateCallback time_diff_1ms]⟩
      else
        CU_TASK_update_loop cb time_diff_1ms tbl world rest (i + 1)

/-- The function `CU_TASK_update(task_details, time_diff_1ms)`. -/
def CU_TASK_update {σ : Type} (cb : Callbacks σ) (tbl : RequestTable) (world : σ)
    (time_diff_1ms : Nat) : UpdateResult σ :=
  CU_TASK_update_loop cb time_diff_1ms tbl world taskEntries 0

/-! ## Runs of the scheduler -/

/-- The scheduler together with its environment: the request table, the
external world of the callbacks, and every callback invocation made so far
(oldest first). -/
structure Sched (σ : Type) where
  tbl : RequestTable
  world : σ
  calls : List Call

/-- Process start: zeroed request table, no callback invoked yet. -/
def Sched.start {σ : Type} (world : σ) : Sched σ :=
  ⟨RequestTable.zeroed, world, []⟩

/-- One scheduler tick: a call of `CU_TASK_update`. -/
def Sched.tick {σ : Type} (cb : Callbacks σ) (s : Sched σ) (time_diff_1ms : Nat) :
    Sched σ :=
  let r := CU_TASK_update cb s.tbl s.world time_diff_1ms
  ⟨r.tbl, r.world, s.calls ++ r.calls⟩

/-- Consecutive ticks, one per elapsed time of the list, nothing in between. -/
def Sched.ticks {σ : Type} (cb : Callbacks σ) : Sched σ → List Nat → Sched σ
  | s, [] => s
  | s, t :: ts => Sched.ticks cb (s.tick cb t) ts

/-- A call made by the caller of the scheduler. -/
inductive Op where
  | addTask (request_task_name : String) (option : Int)
  | update (time_diff_1ms : Nat)
deriving DecidableEq, Repr

/-- Effect of one call; `none` when the process has exited. -/
def Sched.step {σ : Type} (cb : Callbacks σ) (s : Sched σ) : Op → Option (Sched σ)
  | .addTask request_task_name option =>
      match CU_TASK_addTask request_task_name option s.tbl with
      | .returned t _ => some { s with tbl := t }
      | .exited _ _ _ => none
  | .update time_diff_1ms => some (s.tick cb time_diff_1ms)

/-- Effect of a finite sequence of calls. -/
def Sched.run {σ : Type} (cb : Callbacks σ) : Sched σ → List Op → Option (Sched σ)
  | s, [] => some s
  | s, op :: ops =>
      match s.step cb op with
      | some s1 => Sched.run cb s1 ops
      | none => none

/-! ## Vocabulary of the claims -/

/-- A state that makes `CU_TASK_update` stop its scan: `PENDING` or `CONTINUE`. -/
def CU_TASK_STATUS.runnable (s : CU_TASK_STATUS) : Prop :=
  s = .PENDING ∨ s = .CONTINUE

instance (s : CU_TASK_STATUS) : Decidable s.runnable :=
  inferInstanceAs (Decidable (_ ∨ _))

/-- A state that the scan of `CU_TASK_update` passes over: `NONE`, `DONE` or
`ERROR`. -/
def CU_TASK_STATUS.idle (s : CU_TASK_STATUS) : Prop :=
  s = .NONE ∨ s = .DONE ∨ s = .ERROR

instance (s : CU_TASK_STATUS) : Decidable s.idle :=
  inferInstanceAs (Decidable (_ ∨ _))

/-- Entry `k` is the first entry, in registry order, whose state is `PENDING`
or `CONTINUE`. -/
def RequestTable.FirstRunnable (t : RequestTable) (k : Nat) : Prop :=
  k < taskEntriesSize ∧ (t.state k).runnable ∧ ∀ j < k, ¬ (t.state j).runnable

instance (t : RequestTable) (k : Nat) : Decidable (t.FirstRunnable k) :=
  inferInstanceAs (Decidable (_ ∧ _ ∧ _))

/-- Every entry in state `CONTINUE` is preceded, in registry order, only by
entries that are neither `PENDING` nor `CONTINUE`. -/
def RequestTable.ContinueFirst (t : RequestTable) : Prop :=
  ∀ i, t.state i = .CONTINUE → ∀ j < i, ¬ (t.state j).runnable

/-- Number of entries of the request table whose state is `s`. -/
def RequestTable.countState (t : RequestTable) (s : CU_TASK_STATUS) : Nat :=
  (t.entries.map (fun r => r.state)).count s

/-- Search of `entries` (which start at index `i`) for the first entry called
`name`. -/
def findTask (name : String) : List CU_TASK_Entry → Nat → Option Nat
  | [], _ => none
  | e :: rest, i => if e.taskName = name then some i else findTask name rest (i + 1)

/-- The index of the first registry entry called `name`, if there is one. -/
def taskIndex (name : String) : Option Nat :=
  findTask name taskEntries 0

/-- The call `CU_TASK_addTask(name, _)` respects the order of execution: `name`
is a registry name and no entry after it in registry order is in state
`CONTINUE`. -/
def RequestTable.addInOrder (t : RequestTable) (name : String) : Bool :=
  match taskIndex name with
  | some k => decide (∀ j < taskEntriesSize, k < j → t.state j ≠ .CONTINUE)
  | none => false

/-- Every `CU_TASK_addTask` call of the sequence respects the order of
execution at the moment it is made. -/
def Sched.addsInOrder {σ : Type} (cb : Callbacks σ) : Sched σ → List Op → Bool
  | _, [] => true
  | s, op :: ops =>
      (match op with
        | .addTask request_task_name _ => s.tbl.addInOrder request_task_name
        | .update _ => true) &&
      (match s.step cb op with
        | some s1 => Sched.addsInOrder cb s1 ops
        | none => true)

/-- The entry a callback invocation belongs to. -/
def Call.entry : Call → Nat
  | .init i _ => i
  | .update i _ _ => i

/-- Whether a callback invocation is the init callback of entry `k`. -/
def Call.isInit (k : Nat) : Call → Bool
  | .init i _ => i == k
  | .update _ _ _ => false

/-- Callbacks for concrete runs: the external world is trivial and every update
callback reports `r`. -/
def Callbacks.const (r : CU_TASK_STATUS) : Callbacks Unit :=
  ⟨fun _ w => w, fun _ w _ => (r, w)⟩

/-- A request table given by its three entries. -/
def RequestTable.ofEntries (a b c : CU_TASK_Requested) : RequestTable :=
  ⟨[a, b, c], rfl⟩

/-- Bookkeeping for two entries `i` and `j` along a run of ticks: while entry
`i` is `PENDING` or `CONTINUE`, entry `j` is still `PENDING` and its init
callback has not been invoked; once entry `i` has left `PENDING`, its init
callback `fi` has been invoked; and every invocation of the init callback of
entry `j` comes after an invocation of `fi` for entry `i`. -/
def Sched.PairOrder {σ : Type} (i j : Nat) (fi : InitCallback) (s : Sched σ) : Prop :=
  ((s.tbl.state i).runnable →
    s.tbl.state j = .PENDING ∧ ∀ c ∈ s.calls, c.isInit j = false) ∧
  (s.tbl.state i ≠ .PENDING → Call.init i fi ∈ s.calls) ∧
  (∀ (n : Nat) (f : InitCallback), s.calls[n]? = some (.init j f) →
    ∃ m, m < n ∧ s.calls[m]? = some (.init i fi))

/-- Search of `entries` (which start at index `i`) for the first entry whose
state in the request table is `s`. -/
def firstInState (tbl : RequestTable) (s : CU_TASK_STATUS) :
    List CU_TASK_Entry → Nat → Option (Nat × CU_TASK_Entry)
  | [], _ => none
  | e :: rest, i =>
      if tbl.state i = s then some (i, e) else firstInState tbl s rest (i + 1)

/-- The scheduler tick in the words of the specification (section 4.2), to be
compared with `CU_TASK_update`: step 1, the first entry found `PENDING` has its
init callback invoked, becomes `CONTINUE`, and `CONTINUE` is returned; step 2,
else, the first entry found `CONTINUE` has its update callback invoked, and the
result `DONE`, `CONTINUE` or any other is mapped to `DONE`, `CONTINUE` or
`ERROR`; step 3, if no entry is `PENDING` or `CONTINUE`, `DONE` is returned. -/
def spec_update {σ : Type} (cb : Callbacks σ) (tbl : RequestTable) (world : σ)
    (time_diff_1ms : Nat) : UpdateResult σ :=
  match firstInState tbl .PENDING taskEntries 0 with
  | some (k, e) =>
      ⟨.CONTINUE, tbl.setState k .CONTINUE, cb.init e.initCallback world,
        [.init k e.initCallback]⟩
  | none =>
      match firstInState tbl .CONTINUE taskEntries 0 with
      | some (k, e) =>
          let r := cb.update e.updateCallback world time_diff_1ms
          if r.1 = .DONE then
            ⟨.DONE, tbl.setState k .DONE, r.2, [.update k e.updateCallback time_diff_1ms]⟩
          else if r.1 = .CONTINUE then
            ⟨.CONTINUE, tbl, r.2, [.update k e.updateCallback time_diff_1ms]⟩
          else
            ⟨.ERROR, tbl.setState k .ERROR, r.2,
              [.update k e.updateCallback time_diff_1ms]⟩
      | none => ⟨.DONE, tbl, world, []⟩

/-- Entry `p` is the first entry, in registry order, whose state is `PENDING`. -/
def RequestTable.FirstPending (t : RequestTable) (p : Nat) : Prop :=
  t.state p = .PENDING ∧ ∀ j < p, t.state j ≠ .PENDING

/-- Whether a callback invocation is an update callback. -/
def Call.isUpdate : Call → Bool
  | .init _ _ => false
  | .update _ _ _ => true

end CU_TASK

/-!
# The CAN transaction layer of `kinetek-util` (`SocketCanHelper.cpp`)

Modelling conventions
* The object state touched by `send_frame`, `get_frame` and `print_mini_log` is
  the record `SocketCanHelper`; `std::queue` is a list whose head is the front.
* The CANopen driver, `timerfd_settime` and the clock are not part of the
  sources: their results are parameters (`TxEnv`, `RxEnv`), and every driver
  call made is returned in order (`DriverCall`).
* The text streamed for the elapsed time is a floating point rendering; it is a
  parameter (`elapsed`).
* `uint8_t` / `uint32_t` values are `Nat`, `int` values are `Int`; the one `int`
  product that could overflow is reduced with `int32_wrap`.
* Positions `8` and above of the `data` list of a transmit buffer stand for the
  memory that follows the 8-byte array.
* The compile-time trace file (`DEBUG_SOCKET_CAN`) is not modelled.
-/

namespace KinetekUtil

/-- The constant `MAX_QUEUE_SIZE`. -/
def MAX_QUEUE_SIZE : Nat := 16

/-- The constant `EXIT_FAILURE` of the C library. -/
def EXIT_FAILURE : Int := 1

/-- Modelled from the spec: the transmit buffer `CO_CANtx_t` of the CANopen
driver, whose header is missing; the spec gives a frame as an identifier, a
data length code and 8 data bytes, and names the buffer-full and sync flags. -/
structure CO_CANtx_t where
  ident : Nat
  DLC : Nat
  data : List Nat
  bufferFull : Bool
  syncFlag : Bool
deriving DecidableEq, Repr

/-- Modelled from the spec: the received message `CO_CANrxMsg_t` of the CANopen
driver, whose header is missing: identifier, data length code, 8 data bytes. -/
structure CO_CANrxMsg_t where
  ident : Nat
  DLC : Nat
  data : List Nat
deriving DecidableEq, Repr

/-- The struct `timespec`. -/
structure timespec where
  tv_sec : Int
  tv_nsec : Int
deriving DecidableEq, Repr

/-- The struct `itimerspec`. -/
structure itimerspec where
  it_interval : timespec
  it_value : timespec
deriving DecidableEq, Repr

/-- The members of the class `SocketCanHelper` used by the three functions:
`tx` is `can_module->txArray[0]`, `can_msg` is `*can_msg`, `time_out` is
`*time_out`, `can_string` is the content of the string stream. -/
structure SocketCanHelper where
  tx : CO_CANtx_t
  can_msg : CO_CANrxMsg_t
  time_out : itimerspec
  can_string : String
  mini_can_log : List String
deriving DecidableEq, Repr

/-- A call into the driver or the timer made by the transaction layer. -/
inductive DriverCall where
  | CO_CANtxBufferInit (index ident rtr noOfBytes : Nat) (syncFlag : Bool)
  | CO_CANsend (buffer : CO_CANtx_t)
  | timerfd_settime (new_value : itimerspec)
  | CO_CANrxBufferInit (index ident mask rtr : Nat)
  | CO_CANrxWait
deriving DecidableEq, Repr

/-- What `send_frame` gets from outside: the buffer `txArray[0]` as left by
`CO_CANtxBufferInit(can_module, 0, ident, 0, noOfBytes, false)`, the result of
`CO_CANsend` on the buffer handed to it, and the text of the elapsed time. -/
structure TxEnv where
  CO_CANtxBufferInit : CO_CANtx_t → Nat → Nat → CO_CANtx_t
  CO_CANsend : CO_CANtx_t → Int
  elapsed : String

/-- What `get_frame` gets from outside: the results of `timerfd_settime` and of
`CO_CANrxBufferInit(can_module, 0, ident, mask, 0, obj, call_back)`, the result
of `CO_CANrxWait` together with the content it leaves in `*can_msg`, and the
text of the elapsed time. -/
structure RxEnv where
  timerfd_settime : itimerspec → Int
  CO_CANrxBufferInit : Nat → Nat → Int
  CO_CANrxWait : CO_CANrxMsg_t → Int × CO_CANrxMsg_t
  elapsed : String

/-- Result of a call of `send_frame` or `get_frame`: the object afterwards,
`some c` when the call ended the process by `exit(c)`, the driver calls made,
and the entries the call pushed on `mini_can_log`. -/
structure CallResult where
  helper : SocketCanHelper
  exit_code : Option Int
  driver_calls : List DriverCall
  appended : List String

/-! ## Stream formatting -/

/-- One uppercase hexadecimal digit. -/
def hexDigit (d : Nat) : Char :=
  ['0', '1', '2', '3', '4', '5', '6', '7', '8', '9', 'A', 'B', 'C', 'D', 'E', 'F'].getD d '?'

/-- The hexadecimal digits of `n` put in front of `acc`, at most `fuel` of them. -/
def hexDigitsAux : Nat → Nat → List Char → List Char
  | 0, _, acc => acc
  | fuel + 1, n, acc =>
      if n / 16 = 0 then hexDigit (n % 16) :: acc
      else hexDigitsAux fuel (n / 16) (hexDigit (n % 16) :: acc)

/-- The uppercase hexadecimal digits of `n`, as `std::hex << std::uppercase`
writes an unsigned number. -/
def hexUpper (n : Nat) : List Char :=
  hexDigitsAux (n + 1) n []

/-- Output of the text `s` with field width `w` and fill character `fill`
(right adjusted, the default): the fill is put in front when `s` is shorter
than `w`. -/
def padLeft (w : Int) (fill : Char) (s : List Char) : List Char :=
  List.replicate (w - s.length).toNat fill ++ s

/-- The text of `std::hex << std::uppercase << std::setfill('0') <<
std::setw(w) << n`. -/
def hexField (w : Int) (n : Nat) : String :=
  String.mk (padLeft w '0' (hexUpper n))

/-- The loop `for (i = 0; i < len; i++)` that streams `data[i]` as two
hexadecimal digits and a space; `n` is the number of iterations left. -/
def format_bytes_from (data : List Nat) : Nat → Nat → String
  | 0, _ => ""
  | n + 1, i => hexField 2 (data.getD i 0) ++ " " ++ format_bytes_from data n (i + 1)

/-- The text of the payload bytes `data[0 .. len-1]`. -/
def format_bytes (data : List Nat) (len : Nat) : String :=
  format_bytes_from data len 0

/-- The payload part of a receive trace entry: the bytes, then
`std::setw(filler) << std::setfill(' ') << " "` with `filler = 3*(8-DLC)`. -/
def rx_payload (msg : CO_CANrxMsg_t) : String :=
  format_bytes msg.data msg.DLC ++
    String.mk (padLeft (3 * (8 - (msg.DLC : Int))) ' ' [' '])

/-- The trace entry of a successful `send_frame`. -/
def tx_entry (can_id : Nat) (data : List Nat) (data_len : Nat) (elapsed : String) : String :=
  "TX\t" ++ "Id: " ++ hexField 3 can_id ++ "\t\tData: " ++ format_bytes data data_len ++
    "\t" ++ elapsed ++ "\r\n"

/-- The trace entry of a `get_frame` that received a frame. -/
def rx_entry (msg : CO_CANrxMsg_t) (elapsed : String) : String :=
  "RX\t" ++ "Id: " ++ hexField 3 msg.ident ++ "\t\tData: " ++ rx_payload msg ++
    "\t" ++ elapsed ++ "\r\n"

/-! ## The three functions -/

/-- The statements `if(mini_can_log.size() == MAX_QUEUE_SIZE) mini_can_log.pop();
mini_can_log.push(line);` found in `send_frame` and in `get_frame`. -/
def trace_push (mini_can_log : List String) (line : String) : List String :=
  (if mini_can_log.length = MAX_QUEUE_SIZE then mini_can_log.tail else mini_can_log) ++
    [line]

/-- The library function `memcpy(dest, src, n)` on byte lists: the first `n`
bytes come from `src`, the rest of `dest` is kept. -/
def memcpy (dest src : List Nat) (n : Nat) : List Nat :=
  src.take n ++ dest.drop n

/-- Wrap-around of a mathematical result into the range of a 32-bit `int`. -/
def int32_wrap (x : Int) : Int :=
  (x + 2 ^ 31) % 2 ^ 32 - 2 ^ 31

/-- The function `SocketCanHelper::send_frame(can_id, data, data_len)`.  The
function is declared `int` but has no `return` statement; its result is not
modelled. -/
def send_frame (env : TxEnv) (h : SocketCanHelper) (can_id : Nat) (data : List Nat)
    (data_len : Nat) : CallResult :=
  let init : CO_CANtx_t × List DriverCall :=
    if can_id > 0x7FF then
      ({ h.tx with ident := can_id, DLC := data_len, bufferFull := false,
                   syncFlag := false }, [])
    else
      (env.CO_CANtxBufferInit h.tx can_id data_len,
        [.CO_CANtxBufferInit 0 can_id 0 data_len false])
  let tx1 : CO_CANtx_t := { init.1 with data := memcpy init.1.data data data_len }
  let err := env.CO_CANsend tx1
  let calls := init.2 ++ [.CO_CANsend tx1]
  if err < 0 then
    ⟨{ h with tx := tx1, can_string := "TX\t" }, some EXIT_FAILURE, calls, []⟩
  else
    let line := tx_entry can_id data data_len env.elapsed
    ⟨{ h with tx := tx1, can_string := line,
              mini_can_log := trace_push h.mini_can_log line }, none, calls, [line]⟩

/-- The value stored in `*time_out` by `get_frame` for `wait_time`
milliseconds. -/
def wait_time_spec (wait_time : Int) : itimerspec :=
  { it_value := ⟨Int.tdiv wait_time 1000, int32_wrap (Int.tmod wait_time 1000 * 1000000)⟩,
    it_interval := ⟨0, 0⟩ }

/-- The meaning of the value handed to `timerfd_settime` (with flags `0`), as
Linux defines the call, which is not part of the sources: a value whose
`it_value` has a non-zero field arms the timer, `it_value` zero in both fields
disarms it, and an armed timer expires just once when both fields of
`it_interval` are zero. -/
def itimerspec.arms_one_shot (t : itimerspec) : Prop :=
  t.it_value ≠ ⟨0, 0⟩ ∧ t.it_interval = ⟨0, 0⟩

instance (t : itimerspec) : Decidable t.arms_one_shot :=
  inferInstanceAs (Decidable (_ ∧ _))

/-- The function `SocketCanHelper::get_frame(can_id, obj, call_back, wait_time,
can_id_mask)`; the returned pointer is `can_msg` of the resulting object. -/
def get_frame (env : RxEnv) (h : SocketCanHelper) (can_id : Nat) (wait_time : Int)
    (can_id_mask : Nat) : CallResult :=
  let msg0 : CO_CANrxMsg_t := ⟨0, 0, List.replicate 8 0⟩
  let t := wait_time_spec wait_time
  let h1 : SocketCanHelper := { h with can_msg := msg0, time_out := t }
  if env.timerfd_settime t < 0 then
    ⟨h1, some EXIT_FAILURE, [.timerfd_settime t], []⟩
  else
    let h2 : SocketCanHelper := { h1 with can_string := "RX\t" }
    if env.CO_CANrxBufferInit can_id can_id_mask < 0 then
      ⟨h2, some EXIT_FAILURE,
        [.timerfd_settime t, .CO_CANrxBufferInit 0 can_id can_id_mask 0], []⟩
    else
      let r := env.CO_CANrxWait msg0
      let calls : List DriverCall :=
        [.timerfd_settime t, .CO_CANrxBufferInit 0 can_id can_id_mask 0, .CO_CANrxWait]
      if r.1 < 0 then
        ⟨{ h2 with can_msg := r.2, can_string := "RX\t" ++ "TIME OUT\r\n" }, none, calls, []⟩
      else
        let line := rx_entry r.2 env.elapsed
        ⟨{ h2 with can_msg := r.2, can_string := line,
                   mini_can_log := trace_push h.mini_can_log line }, none, calls, [line]⟩

/-- The loop of `print_mini_log`, with `n` iterations left: print the front of
the queue, pop it.  Returns the texts printed and the queue afterwards. -/
def print_mini_log_loop : Nat → List String → List String × List String
  | 0, q => ([], q)
  | n + 1, q =>
      let r := print_mini_log_loop n q.tail
      (q.headD "" :: r.1, r.2)

/-- The function `SocketCanHelper::print_mini_log()`, with the macro
`DEBUG_PRINTF` of the missing header `debug.h` taken as printing its text: the
object afterwards and the texts printed, in order. -/
def print_mini_log (h : SocketCanHelper) : SocketCanHelper × List String :=
  let size := h.mini_can_log.length
  let r := print_mini_log_loop size h.mini_can_log
  ({ h with mini_can_log := r.2 },
    ("Last " ++ toString size ++ " messages in CAN trace\r\n") :: r.1)

/-! ## Sequences of calls -/

/-- A call of `send_frame` or `get_frame`, with what it gets from outside. -/
inductive BusCall where
  | send (env : TxEnv) (can_id : Nat) (data : List Nat) (data_len : Nat)
  | receive (env : RxEnv) (can_id : Nat) (wait_time : Int) (can_id_mask : Nat)

/-- Execute one call. -/
def BusCall.exec (h : SocketCanHelper) : BusCall → CallResult
  | .send env can_id data data_len => send_frame env h can_id data data_len
  | .receive env can_id wait_time can_id_mask => get_frame env h can_id wait_time can_id_mask

/-- Result of a sequence of calls: the object afterwards, every entry pushed on
`mini_can_log` in order, and the exit code when a call ended the process (the
calls after it are not made). -/
structure RunResult where
  helper : SocketCanHelper
  appended : List String
  exit_code : Option Int

/-- Execute a sequence of calls. -/
def runCalls : SocketCanHelper → List BusCall → RunResult
  | h, [] => ⟨h, [], none⟩
  | h, c :: cs =>
      let r := c.exec h
      match r.exit_code with
      | some code => ⟨r.helper, r.appended, some code⟩
      | none =>
          let rest := runCalls r.helper cs
          ⟨rest.helper, r.appended ++ rest.appended, rest.exit_code⟩

/-- The trace entry that a call writes when it is successful, from the
arguments of the call and from what the driver delivers: the transmit entry of
the identifier and payload sent, or the receive entry of the frame that
`CO_CANrxWait` leaves in the zeroed `*can_msg`. -/
def BusCall.entry : BusCall → String
  | .send env can_id data data_len => tx_entry can_id data data_len env.elapsed
  | .receive env _ _ _ =>
      rx_entry (env.CO_CANrxWait ⟨0, 0, List.replicate 8 0⟩).2 env.elapsed

/-- A successful call on the object `h`: a `send_frame` that returns, or a
`get_frame` that returns and whose wait did not end by timer expiry
(`CO_CANrxWait` did not report a negative result). -/
def BusCall.succeeds (h : SocketCanHelper) : BusCall → Bool
  | .send env can_id data data_len =>
      decide ((send_frame env h can_id data data_len).exit_code = none)
  | .receive env can_id wait_time can_id_mask =>
      decide ((get_frame env h can_id wait_time can_id_mask).exit_code = none) &&
        decide (0 ≤ (env.CO_CANrxWait ⟨0, 0, List.replicate 8 0⟩).1)

/-- Every call of the sequence is successful on the object it is made on. -/
def allSucceed : SocketCanHelper → List BusCall → Bool
  | _, [] => true
  | h, c :: cs => c.succeeds h && allSucceed (c.exec h).helper cs

/-- An object for concrete runs: zeroed buffers, empty stream, empty log. -/
def SocketCanHelper.fresh : SocketCanHelper :=
  ⟨⟨0, 0, List.replicate 8 0, false, false⟩, ⟨0, 0, List.replicate 8 0⟩,
    ⟨⟨0, 0⟩, ⟨0, 0⟩⟩, "", []⟩

/-- A transmit environment for concrete runs: `CO_CANtxBufferInit` stores the
identifier and the length, `CO_CANsend` reports `err`. -/
def TxEnv.simple (err : Int) (elapsed : String) : TxEnv :=
  ⟨fun buf ident n => { buf with ident := ident, DLC := n, bufferFull := false,
                                 syncFlag := false },
    fun _ => err, elapsed⟩

/-- A receive environment for concrete runs: the timer and the receive buffer
are set up without error, `CO_CANrxWait` reports `err` and leaves `msg`. -/
def RxEnv.simple (err : Int) (msg : CO_CANrxMsg_t) (elapsed : String) : RxEnv :=
  ⟨fun _ => 0, fun _ _ => 0, fun _ => (err, msg), elapsed⟩

end KinetekUtil

/-!
# The command line of `vcis-util` (`CU_COMMAND.c`)

Modelling conventions
* `parse_opt` is called by `argp_parse` of the C library, once per option, with
  the option key and its argument; `state->input` is the `CU_TaskDetails`
  record `cmd`.
* `strtol` and the version texts are not part of the sources: they are
  parameters (`Libc`); `Libc.standard` has `strtol` as the C standard defines
  it.  The numeric fields of `CU_TaskDetails` hold the result
  of `strtol` as an integer; the conversion to the field type is not modelled.
* `CU_TASK_addTask` is an external function for `CU_COMMAND.c`.  The `CU_TASK.c`
  that `vcis-util` is linked with is not under the sources (the one under the
  sources belongs to `canopen-util`), so the function and its request table are
  parameters of `parse_opt` (`addTask`, over any type `τ` of request tables).
-/

namespace CU_COMMAND

/-- The constant `DEFAULT_PROGRAM_ID`. -/
def DEFAULT_PROGRAM_ID : Int := 2

/-- The constant `DEFAULT_SERVER_NODE_ID`. -/
def DEFAULT_SERVER_NODE_ID : Int := 0x49

/-- The constant `DEFAULT_SOCKET_CAN_INTERFACE`. -/
def DEFAULT_SOCKET_CAN_INTERFACE : String := "can0"

/-- The constant `ARGP_KEY_ARG` of `argp.h`. -/
def ARGP_KEY_ARG : Int := 0

/-- The constant `ARGP_ERR_UNKNOWN` of `argp.h` (`E2BIG`). -/
def ARGP_ERR_UNKNOWN : Int := 7

/-- Modelled from the spec: the record `CU_TaskDetails` is declared in the header
`CU.h`, which is missing; the spec lists node id, interface name, program id,
firmware file path and a numeric option. -/
structure CU_TaskDetails where
  programID : Int
  programFilename : String
  interfaceName : String
  nodeID : Int
  options : Int
deriving DecidableEq, Repr

/-- What `parse_opt` gets from outside: `strtol(nptr, NULL, base)`, and the line
printed for the version option. -/
structure Libc where
  strtol : String → Nat → Int
  version_line : String

/-- How a call of the linked `CU_TASK_addTask` ends: by `return`, or by
`exit(code)`.  Both carry the request table at that point and the lines
printed. -/
inductive AddTaskEnd (τ : Type) where
  | returned (tbl : τ) (printed : List String)
  | exited (code : Int) (tbl : τ) (printed : List String)
deriving DecidableEq

/-- How a call of `parse_opt` ends: by `return err`, or by `exit(code)`.  Both
carry the task details, the request table and the lines printed. -/
inductive ParseOutcome (τ : Type) where
  | returned (err : Int) (cmd : CU_TaskDetails) (tbl : τ) (printed : List String)
  | exited (code : Int) (cmd : CU_TaskDetails) (tbl : τ) (printed : List String)
deriving DecidableEq

/-- The option key given by a character constant. -/
def key_of (c : Char) : Int := c.toNat

/-- The library function `strlen`. -/
def strlen (s : String) : Nat := s.data.length

/-- The library function `strncmp`, up to the magnitude of a non-zero result. -/
def strncmp (a b : String) (n : Nat) : Int :=
  CU_TASK.strcmp_chars (a.data.take n) (b.data.take n)

/-- The string `&arg[i]`. -/
def from_index (arg : String) (i : Nat) : String :=
  String.mk (arg.data.drop i)

/-- The statements `CU_TASK_addTask(name, 0); break;` followed by `return 0;`. -/
def addTask_then_return {τ : Type} (addTask : String → Int → τ → AddTaskEnd τ)
    (cmd : CU_TaskDetails) (tbl : τ) (name : String) : ParseOutcome τ :=
  match addTask name 0 tbl with
  | .returned t printed => .returned 0 cmd t printed
  | .exited code t printed => .exited code cmd t printed

/-- The function `parse_opt(key, arg, state)`, linked with the function
`addTask` as its `CU_TASK_addTask`. -/
def parse_opt {τ : Type} (env : Libc) (addTask : String → Int → τ → AddTaskEnd τ)
    (key : Int) (arg : String) (cmd : CU_TaskDetails) (tbl : τ) : ParseOutcome τ :=
  if key = key_of 'p' then
    if strlen arg < 3 ∨ CU_TASK.strcmp arg "0x" ≠ 0 then
      .returned 0 { cmd with programID := env.strtol (from_index arg 0) 10 } tbl []
    else
      .returned 0 { cmd with programID := env.strtol (from_index arg 2) 16 } tbl []
  else if key = key_of 'f' then
    addTask_then_return addTask { cmd with programFilename := arg } tbl "program"
  else if key = key_of 'i' then
    .returned 0 { cmd with interfaceName := arg } tbl []
  else if key = key_of 'n' then
    if strlen arg < 3 ∨ strncmp arg "0x" 2 ≠ 0 then
      .returned 0 { cmd with nodeID := env.strtol (from_index arg 0) 10 } tbl []
    else
      .returned 0 { cmd with nodeID := env.strtol (from_index arg 2) 16 } tbl []
  else if key = key_of 'd' then
    addTask_then_return addTask cmd tbl "info"
  else if key = key_of 'r' then
    addTask_then_return addTask cmd tbl "reset"
  else if key = key_of 's' then
    if strlen arg < 3 ∨ strncmp arg "0x" 2 ≠ 0 then
      addTask_then_return addTask { cmd with options := env.strtol (from_index arg 0) 10 } tbl "state"
    else
      addTask_then_return addTask { cmd with options := env.strtol (from_index arg 2) 16 } tbl "state"
  else if key = key_of 'v' then
    .exited 0 cmd tbl [env.version_line]
  else if key = key_of 't' then
    addTask_then_return addTask cmd tbl "test"
  else if key = ARGP_KEY_ARG then
    .returned 0 cmd tbl []
  else
    .returned ARGP_ERR_UNKNOWN cmd tbl []

/-- The function `CU_COMMAND_parseArgs` up to the call of `argp_parse`: the
defaults stored in the task details. -/
def CU_COMMAND_parseArgs_defaults (cmd : CU_TaskDetails) : CU_TaskDetails :=
  { cmd with nodeID := DEFAULT_SERVER_NODE_ID,
             interfaceName := DEFAULT_SOCKET_CAN_INTERFACE,
             programID := DEFAULT_PROGRAM_ID }

/-- A C library for concrete runs: `strtol` always gives `v`. -/
def Libc.const (v : Int) : Libc :=
  ⟨fun _ _ => v, "version\r\n"⟩

/-- The value of a character as a digit of `strtol`: `0 .. 9` for the decimal
digits, `10 .. 35` for the letters in either case. -/
def digitValue (c : Char) : Option Nat :=
  if '0'.toNat ≤ c.toNat ∧ c.toNat ≤ '9'.toNat then some (c.toNat - '0'.toNat)
  else if 'a'.toNat ≤ c.toNat ∧ c.toNat ≤ 'z'.toNat then some (c.toNat - 'a'.toNat + 10)
  else if 'A'.toNat ≤ c.toNat ∧ c.toNat ≤ 'Z'.toNat then some (c.toNat - 'A'.toNat + 10)
  else none

/-- The digits read by `strtol`: the value of the longest prefix of digits of
the base, with `acc` the value read so far. -/
def strtol_digits (base : Nat) : List Char → Nat → Nat
  | [], acc => acc
  | c :: rest, acc =>
      match digitValue c with
      | some d => if d < base then strtol_digits base rest (acc * base + d) else acc
      | none => acc

/-- The white space skipped by `strtol` (`isspace` in the C locale). -/
def isspace (c : Char) : Bool :=
  c = ' ' || c = '\t' || c = '\n' || c = '\x0b' || c = '\x0c' || c = '\r'

/-- The prefix `0x` or `0X` that `strtol` skips in base 16 when a hexadecimal
digit follows. -/
def skip_0x (base : Nat) : List Char → List Char
  | '0' :: x :: d :: rest =>
      if base = 16 ∧ (x = 'x' ∨ x = 'X') ∧ (digitValue d).any (fun v => decide (v < 16)) then
        d :: rest
      else '0' :: x :: d :: rest
  | s => s

/-- The library function `strtol(nptr, NULL, base)` of the C standard for a base
from 2 to 36 and a 64-bit `long`: white space, an optional sign, in base 16 an
optional `0x`, then the longest run of digits of the base; `0` when there is no
digit; `LONG_MAX` or `LONG_MIN` when the value is out of range. -/
def strtol (nptr : String) (base : Nat) : Int :=
  let s := nptr.data.dropWhile isspace
  let neg : Bool :=
    match s with
    | '-' :: _ => true
    | _ => false
  let body : List Char :=
    match s with
    | '-' :: rest => rest
    | '+' :: rest => rest
    | _ => s
  let v : Int := strtol_digits base (skip_0x base body) 0
  if neg then
    if v > 2 ^ 63 then -(2 ^ 63) else -v
  else
    if v > 2 ^ 63 - 1 then 2 ^ 63 - 1 else v

/-- The C library with `strtol` as the C standard defines it. -/
def Libc.standard : Libc :=
  ⟨CU_COMMAND.strtol, "version\r\n"⟩

end CU_COMMAND

namespace CU_TASK

/-! ## Basic facts about the request table and the two loops -/

open CU_TASK_STATUS

theorem taskEntriesSize_eq : taskEntriesSize = 3 := rfl

theorem RequestTable.eq_of_entries {a b : RequestTable} (h : a.entries = b.entries) :
    a = b := by
  cases a; cases b; cases h; rfl

theorem RequestTable.get_setState (t : RequestTable) (k j : Nat) (s : CU_TASK_STATUS)
    (hk : k < taskEntriesSize) :
    (t.setState k s).get j = if j = k then { t.get k with state := s } else t.get j := by
  have hlen : k < t.entries.length := by rw [t.size_ok]; exact hk
  unfold RequestTable.setState RequestTable.get
  simp only [List.getD_eq_getElem?_getD, List.getElem?_set]
  by_cases hjk : j = k
  · subst hjk; simp [hlen]
  · have : ¬ k = j := fun h => hjk h.symm
    simp [hjk, this]

theorem RequestTable.state_setState (t : RequestTable) (k j : Nat) (s : CU_TASK_STATUS)
    (hk : k < taskEntriesSize) :
    (t.setState k s).state j = if j = k then s else t.state j := by
  unfold RequestTable.state
  rw [RequestTable.get_setState t k j s hk]
  split <;> rfl

theorem RequestTable.option_setState (t : RequestTable) (k j : Nat) (s : CU_TASK_STATUS)
    (hk : k < taskEntriesSize) :
    ((t.setState k s).get j).option = (t.get j).option := by
  rw [RequestTable.get_setState t k j s hk]
  split
  · next h => subst h; rfl
  · rfl

theorem update_loop_cons {σ : Type} (cb : Callbacks σ) (time : Nat) (tbl : RequestTable)
    (world : σ) (e : CU_TASK_Entry) (rest : List CU_TASK_Entry) (i : Nat) :
    CU_TASK_update_loop cb time tbl world (e :: rest) i =
      if tbl.state i = .PENDING then
        ⟨.CONTINUE, tbl.setState i .CONTINUE, cb.init e.initCallback world,
          [.init i e.initCallback]⟩
      else if tbl.state i = .CONTINUE then
        if (cb.update e.updateCallback world time).1 = .DONE then
          ⟨.DONE, tbl.setState i .DONE, (cb.update e.updateCallback world time).2,
            [.update i e.updateCallback time]⟩
        else if (cb.update e.updateCallback world time).1 = .CONTINUE then
          ⟨.CONTINUE, tbl, (cb.update e.updateCallback world time).2,
            [.update i e.updateCallback time]⟩
        else
          ⟨.ERROR, tbl.setState i .ERROR, (cb.update e.updateCallback world time).2,
            [.update i e.updateCallback time]⟩
      else
        CU_TASK_update_loop cb time tbl world rest (i + 1) := rfl

theorem update_loop_skip {σ : Type} (cb : Callbacks σ) (time : Nat) (tbl : RequestTable)
    (world : σ) (pre rest : List CU_TASK_Entry) :
    ∀ i : Nat, (∀ j < pre.length, ¬ (tbl.state (i + j)).runnable) →
      CU_TASK_update_loop cb time tbl world (pre ++ rest) i =
        CU_TASK_update_loop cb time tbl world rest (i + pre.length) := by
  induction pre with
  | nil => intro i _; rfl
  | cons e pre ih =>
    intro i h
    have h0 := h 0 (by simp)
    simp only [Nat.add_zero, CU_TASK_STATUS.runnable, not_or] at h0
    have hrest : ∀ j < pre.length, ¬ (tbl.state (i + 1 + j)).runnable := by
      intro j hj
      have := h (j + 1) (by simpa using hj)
      rwa [show i + (j + 1) = i + 1 + j by omega] at this
    rw [List.cons_append]
    rw [update_loop_cons, if_neg h0.1, if_neg h0.2, ih (i + 1) hrest, List.length_cons,
      Nat.add_comm pre.length 1, ← Nat.add_assoc]

theorem entries_split (k : Nat) (e : CU_TASK_Entry) (h : taskEntries[k]? = some e) :
    taskEntries = taskEntries.take k ++ e :: taskEntries.drop (k + 1) ∧
      (taskEntries.take k).length = k := by
  have hk : k < taskEntries.length := by
    by_contra hc
    rw [List.getElem?_eq_none (by omega)] at h
    cases h
  refine ⟨?_, by simp; omega⟩
  rw [List.getElem?_eq_getElem hk] at h
  cases h
  simp

theorem RequestTable.get_of_size_le (t : RequestTable) (j : Nat) (h : taskEntriesSize ≤ j) :
    t.get j = ⟨.NONE, 0⟩ := by
  unfold RequestTable.get
  rw [List.getD_eq_getElem?_getD, List.getElem?_eq_none (by rw [t.size_ok]; exact h)]
  rfl

theorem RequestTable.lt_size_of_runnable (t : RequestTable) (j : Nat)
    (h : (t.state j).runnable) : j < taskEntriesSize := by
  by_contra hc
  have hget := t.get_of_size_le j (Nat.le_of_not_lt hc)
  unfold RequestTable.state at h
  rw [hget] at h
  rcases h with h | h <;> cases h

theorem entry_of_lt (k : Nat) (h : k < taskEntriesSize) :
    ∃ e, taskEntries[k]? = some e :=
  ⟨taskEntries[k], List.getElem?_eq_getElem h⟩

theorem RequestTable.exists_firstRunnable (t : RequestTable)
    (h : ∃ j, (t.state j).runnable) : ∃ k, t.FirstRunnable k := by
  classical
  refine ⟨Nat.find h, ?_, Nat.find_spec h, ?_⟩
  · exact t.lt_size_of_runnable _ (Nat.find_spec h)
  · intro j hj
    exact Nat.find_min h hj

theorem RequestTable.firstRunnable_unique (t : RequestTable) (k k2 : Nat)
    (h : t.FirstRunnable k) (h2 : t.FirstRunnable k2) : k = k2 := by
  rcases Nat.lt_trichotomy k k2 with hlt | heq | hgt
  · exact absurd h.2.1 (h2.2.2 k hlt)
  · exact heq
  · exact absurd h2.2.1 (h.2.2 k2 hgt)

theorem update_of_idle {σ : Type} (cb : Callbacks σ) (tbl : RequestTable) (world : σ)
    (time : Nat) (h : ∀ j, ¬ (tbl.state j).runnable) :
    CU_TASK_update cb tbl world time = ⟨.DONE, tbl, world, []⟩ := by
  have := update_loop_skip cb time tbl world taskEntries [] 0 (fun j _ => by
    rw [Nat.zero_add]; exact h j)
  rw [List.append_nil] at this
  unfold CU_TASK_update
  rw [this]
  rfl

theorem update_at_first {σ : Type} (cb : Callbacks σ) (tbl : RequestTable) (world : σ)
    (time k : Nat) (e : CU_TASK_Entry) (hk : tbl.FirstRunnable k)
    (he : taskEntries[k]? = some e) :
    CU_TASK_update cb tbl world time =
      CU_TASK_update_loop cb time tbl world (e :: taskEntries.drop (k + 1)) k := by
  obtain ⟨hsplit, hlen⟩ := entries_split k e he
  unfold CU_TASK_update
  conv_lhs => rw [hsplit]
  rw [update_loop_skip cb time tbl world _ _ 0 (fun j hj => by
    rw [Nat.zero_add]; exact hk.2.2 j (by rw [hlen] at hj; exact hj)), hlen, Nat.zero_add]

theorem update_of_pending {σ : Type} (cb : Callbacks σ) (tbl : RequestTable) (world : σ)
    (time k : Nat) (e : CU_TASK_Entry) (hk : tbl.FirstRunnable k)
    (he : taskEntries[k]? = some e) (hs : tbl.state k = .PENDING) :
    CU_TASK_update cb tbl world time =
      ⟨.CONTINUE, tbl.setState k .CONTINUE, cb.init e.initCallback world,
        [.init k e.initCallback]⟩ := by
  rw [update_at_first cb tbl world time k e hk he, update_loop_cons, if_pos hs]

theorem update_of_continue {σ : Type} (cb : Callbacks σ) (tbl : RequestTable) (world : σ)
    (time k : Nat) (e : CU_TASK_Entry) (hk : tbl.FirstRunnable k)
    (he : taskEntries[k]? = some e) (hs : tbl.state k = .CONTINUE) :
    CU_TASK_update cb tbl world time =
      if (cb.update e.updateCallback world time).1 = .DONE then
        ⟨.DONE, tbl.setState k .DONE, (cb.update e.updateCallback world time).2,
          [.update k e.updateCallback time]⟩
      else if (cb.update e.updateCallback world time).1 = .CONTINUE then
        ⟨.CONTINUE, tbl, (cb.update e.updateCallback world time).2,
          [.update k e.updateCallback time]⟩
      else
        ⟨.ERROR, tbl.setState k .ERROR, (cb.update e.updateCallback world time).2,
          [.update k e.updateCallback time]⟩ := by
  have hne : tbl.state k ≠ .PENDING := by rw [hs]; decide
  rw [update_at_first cb tbl world time k e hk he, update_loop_cons, if_neg hne, if_pos hs]

/-- The three ways a call of `CU_TASK_update` can go. -/
theorem update_cases {σ : Type} (cb : Callbacks σ) (tbl : RequestTable) (world : σ)
    (time : Nat) :
    ((∀ j, ¬ (tbl.state j).runnable) ∧
        CU_TASK_update cb tbl world time = ⟨.DONE, tbl, world, []⟩) ∨
    (∃ k e, tbl.FirstRunnable k ∧ taskEntries[k]? = some e ∧ tbl.state k = .PENDING ∧
        CU_TASK_update cb tbl world time =
          ⟨.CONTINUE, tbl.setState k .CONTINUE, cb.init e.initCallback world,
            [.init k e.initCallback]⟩) ∨
    (∃ k e, tbl.FirstRunnable k ∧ taskEntries[k]? = some e ∧ tbl.state k = .CONTINUE ∧
        ∃ st, (CU_TASK_update cb tbl world time).status = st ∧
          (CU_TASK_update cb tbl world time).world =
            (cb.update e.updateCallback world time).2 ∧
          (CU_TASK_update cb tbl world time).calls = [.update k e.updateCallback time] ∧
          (((cb.update e.updateCallback world time).1 = .DONE ∧ st = .DONE ∧
              (CU_TASK_update cb tbl world time).tbl = tbl.setState k .DONE) ∨
            ((cb.update e.updateCallback world time).1 = .CONTINUE ∧ st = .CONTINUE ∧
              (CU_TASK_update cb tbl world time).tbl = tbl) ∨
            ((cb.update e.updateCallback world time).1 ≠ .DONE ∧
              (cb.update e.updateCallback world time).1 ≠ .CONTINUE ∧ st = .ERROR ∧
              (CU_TASK_update cb tbl world time).tbl = tbl.setState k .ERROR))) := by
  by_cases hex : ∃ j, (tbl.state j).runnable
  · obtain ⟨k, hk⟩ := tbl.exists_firstRunnable hex
    obtain ⟨e, he⟩ := entry_of_lt k hk.1
    rcases hk.2.1 with hs | hs
    · exact Or.inr (Or.inl ⟨k, e, hk, he, hs, update_of_pending cb tbl world time k e hk he hs⟩)
    · refine Or.inr (Or.inr ⟨k, e, hk, he, hs, _, rfl, ?_⟩)
      rw [update_of_continue cb tbl world time k e hk he hs]
      by_cases hd : (cb.update e.updateCallback world time).1 = .DONE
      · rw [if_pos hd]
        exact ⟨rfl, rfl, Or.inl ⟨hd, rfl, rfl⟩⟩
      · rw [if_neg hd]
        by_cases hc : (cb.update e.updateCallback world time).1 = .CONTINUE
        · rw [if_pos hc]
          exact ⟨rfl, rfl, Or.inr (Or.inl ⟨hc, rfl, rfl⟩)⟩
        · rw [if_neg hc]
          exact ⟨rfl, rfl, Or.inr (Or.inr ⟨hd, hc, rfl, rfl⟩)⟩
  · have hall : ∀ j, ¬ (tbl.state j).runnable := fun j hj => hex ⟨j, hj⟩
    exact Or.inl ⟨hall, update_of_idle cb tbl world time hall⟩

theorem strcmp_chars_eq_zero_iff (a b : List Char) : strcmp_chars a b = 0 ↔ a = b := by
  induction a generalizing b with
  | nil => cases b <;> simp [strcmp_chars]
  | cons x xs ih =>
    cases b with
    | nil => simp [strcmp_chars]
    | cons y ys =>
      unfold strcmp_chars
      by_cases hxy : x = y
      · simp [hxy, ih]
      · rw [if_neg hxy]
        split <;> simp [hxy]

theorem strcmp_eq_zero_iff (a b : String) : strcmp a b = 0 ↔ a = b := by
  unfold strcmp
  rw [strcmp_chars_eq_zero_iff]
  exact ⟨String.ext, fun h => by rw [h]⟩

theorem taskIndex_eq_some (name : String) (k : Nat) :
    taskIndex name = some k ↔
      (name = "info" ∧ k = 0) ∨ (name = "program" ∧ k = 1) ∨ (name = "reset" ∧ k = 2) := by
  unfold taskIndex taskEntries
  simp only [findTask]
  by_cases h0 : "info" = name
  · subst h0; simp; omega
  · by_cases h1 : "program" = name
    · subst h1; simp; omega
    · by_cases h2 : "reset" = name
      · subst h2; simp; omega
      · have h0b : ¬ name = "info" := fun h => h0 h.symm
        have h1b : ¬ name = "program" := fun h => h1 h.symm
        have h2b : ¬ name = "reset" := fun h => h2 h.symm
        simp [h0, h1, h2, h0b, h1b, h2b]

theorem taskIndex_eq_none (name : String) :
    taskIndex name = none ↔ name ≠ "info" ∧ name ≠ "program" ∧ name ≠ "reset" := by
  unfold taskIndex taskEntries
  simp only [findTask]
  by_cases h0 : "info" = name
  · subst h0; simp
  · by_cases h1 : "program" = name
    · subst h1; simp
    · by_cases h2 : "reset" = name
      · subst h2; simp
      · have h0b : ¬ name = "info" := fun h => h0 h.symm
        have h1b : ¬ name = "program" := fun h => h1 h.symm
        have h2b : ¬ name = "reset" := fun h => h2 h.symm
        simp [h0, h1, h2, h0b, h1b, h2b]

theorem taskIndex_lt (name : String) (k : Nat) (h : taskIndex name = some k) :
    k < taskEntriesSize := by
  rw [taskIndex_eq_some] at h
  rw [taskEntriesSize_eq]
  omega

theorem addTask_loop_eq (name : String) (option : Int) (tbl : RequestTable)
    (es : List CU_TASK_Entry) (i : Nat) :
    CU_TASK_addTask_loop name option tbl es i =
      match findTask name es i with
      | some k =>
          if tbl.state k ≠ .PENDING then
            .returned (tbl.setState k .PENDING) ["Adding Task: " ++ name ++ "\r\n"]
          else .returned tbl []
      | none => .exited (-1) tbl ["Invalid argument passed: " ++ name ++ "\r\n"] := by
  induction es generalizing i with
  | nil => rfl
  | cons e rest ih =>
    unfold CU_TASK_addTask_loop findTask
    by_cases h : e.taskName = name
    · rw [if_pos ((strcmp_eq_zero_iff _ _).2 h), if_pos h]
    · rw [if_neg (fun hc => h ((strcmp_eq_zero_iff _ _).1 hc)), if_neg h, ih]

theorem addTask_of_index (name : String) (option : Int) (tbl : RequestTable) (k : Nat)
    (h : taskIndex name = some k) :
    CU_TASK_addTask name option tbl =
      if tbl.state k ≠ .PENDING then
        .returned (tbl.setState k .PENDING) ["Adding Task: " ++ name ++ "\r\n"]
      else .returned tbl [] := by
  unfold CU_TASK_addTask
  unfold taskIndex at h
  rw [addTask_loop_eq, h]

theorem addTask_of_unknown (name : String) (option : Int) (tbl : RequestTable)
    (h : taskIndex name = none) :
    CU_TASK_addTask name option tbl =
      .exited (-1) tbl ["Invalid argument passed: " ++ name ++ "\r\n"] := by
  unfold CU_TASK_addTask
  unfold taskIndex at h
  rw [addTask_loop_eq, h]

/-! ## The scan order invariant -/

theorem count_le_one_of_unique_index {α : Type} [DecidableEq α] (a : α) (l : List α)
    (h : ∀ i j : Nat, l[i]? = some a → l[j]? = some a → i = j) : l.count a ≤ 1 := by
  induction l with
  | nil => simp
  | cons x xs ih =>
    have hxs : ∀ i j : Nat, xs[i]? = some a → xs[j]? = some a → i = j := by
      intro i j hi hj
      have := h (i + 1) (j + 1) (by simpa using hi) (by simpa using hj)
      omega
    by_cases hx : x = a
    · subst hx
      have hnot : x ∉ xs := by
        intro hmem
        obtain ⟨n, hn⟩ := List.mem_iff_getElem?.1 hmem
        have := h 0 (n + 1) (by simp) (by simpa using hn)
        omega
      rw [List.count_cons_self, List.count_eq_zero_of_not_mem hnot]
    · rw [List.count_cons_of_ne (fun hc => hx hc.symm)]
      exact ih hxs

theorem RequestTable.state_of_map_getElem? (t : RequestTable) (i : Nat) (s : CU_TASK_STATUS)
    (h : (t.entries.map (fun r => r.state))[i]? = some s) : t.state i = s := by
  rw [List.getElem?_map] at h
  unfold RequestTable.state RequestTable.get
  rw [List.getD_eq_getElem?_getD]
  cases hr : t.entries[i]? with
  | none => rw [hr] at h; cases h
  | some r =>
    rw [hr] at h
    simpa using h

theorem RequestTable.ContinueFirst.count_le_one (t : RequestTable) (h : t.ContinueFirst) :
    t.countState .CONTINUE ≤ 1 := by
  unfold RequestTable.countState
  apply count_le_one_of_unique_index
  intro i j hi hj
  have hsi := t.state_of_map_getElem? i _ hi
  have hsj := t.state_of_map_getElem? j _ hj
  rcases Nat.lt_trichotomy i j with hlt | heq | hgt
  · exact absurd (Or.inr hsi) (h j hsj i hlt)
  · exact heq
  · exact absurd (Or.inr hsj) (h i hsi j hgt)

theorem RequestTable.zeroed_state (j : Nat) : RequestTable.zeroed.state j = .NONE := by
  unfold RequestTable.state RequestTable.get RequestTable.zeroed
  rw [List.getD_eq_getElem?_getD]
  cases h : (List.replicate taskEntriesSize (⟨.NONE, 0⟩ : CU_TASK_Requested))[j]? with
  | none => rfl
  | some r =>
    have := List.mem_replicate.1 (List.getElem?_mem h)
    rw [this.2]; rfl

theorem RequestTable.zeroed_continueFirst : RequestTable.zeroed.ContinueFirst := by
  intro i hi
  rw [RequestTable.zeroed_state] at hi
  cases hi

theorem RequestTable.ContinueFirst.setState_not_runnable (t : RequestTable)
    (h : t.ContinueFirst) (k : Nat) (hk : k < taskEntriesSize) (st : CU_TASK_STATUS)
    (hst : ¬ st.runnable) : (t.setState k st).ContinueFirst := by
  intro i hi j hj
  rw [RequestTable.state_setState t k i st hk] at hi
  rw [RequestTable.state_setState t k j st hk]
  by_cases hik : i = k
  · rw [if_pos hik] at hi
    exact absurd (Or.inr hi) hst
  · rw [if_neg hik] at hi
    by_cases hjk : j = k
    · rw [if_pos hjk]; exact hst
    · rw [if_neg hjk]; exact h i hi j hj

theorem RequestTable.ContinueFirst.setState_first (t : RequestTable)
    (h : t.ContinueFirst) (k : Nat) (hk : t.FirstRunnable k) :
    (t.setState k .CONTINUE).ContinueFirst := by
  intro i hi j hj
  rw [RequestTable.state_setState t k i _ hk.1] at hi
  rw [RequestTable.state_setState t k j _ hk.1]
  by_cases hik : i = k
  · subst hik
    rw [if_neg (Nat.ne_of_lt hj)]
    exact hk.2.2 j hj
  · rw [if_neg hik] at hi
    exfalso
    rcases Nat.lt_or_gt_of_ne hik with hlt | hgt
    · exact hk.2.2 i hlt (Or.inr hi)
    · exact h i hi k hgt hk.2.1

theorem update_continueFirst {σ : Type} (cb : Callbacks σ) (tbl : RequestTable) (world : σ)
    (time : Nat) (h : tbl.ContinueFirst) :
    (CU_TASK_update cb tbl world time).tbl.ContinueFirst := by
  rcases update_cases cb tbl world time with ⟨_, heq⟩ | ⟨k, e, hk, _, _, heq⟩ |
      ⟨k, e, hk, _, _, st, _, _, _, hcase⟩
  · rw [heq]; exact h
  · rw [heq]; exact h.setState_first tbl k hk
  · rcases hcase with ⟨_, _, ht⟩ | ⟨_, _, ht⟩ | ⟨_, _, _, ht⟩
    · rw [ht]; exact h.setState_not_runnable tbl k hk.1 _ (by decide)
    · rw [ht]; exact h
    · rw [ht]; exact h.setState_not_runnable tbl k hk.1 _ (by decide)

theorem addTask_continueFirst (name : String) (option : Int) (tbl t1 : RequestTable)
    (printed : List String) (h : tbl.ContinueFirst) (hord : tbl.addInOrder name = true)
    (hadd : CU_TASK_addTask name option tbl = .returned t1 printed) : t1.ContinueFirst := by
  unfold RequestTable.addInOrder at hord
  cases hidx : taskIndex name with
  | none => rw [hidx] at hord; cases hord
  | some k =>
    rw [hidx] at hord
    have hguard : ∀ j < taskEntriesSize, k < j → tbl.state j ≠ .CONTINUE := by
      simpa using hord
    have hk := taskIndex_lt name k hidx
    rw [addTask_of_index name option tbl k hidx] at hadd
    by_cases hp : tbl.state k = .PENDING
    · rw [if_neg (not_not.2 hp)] at hadd
      cases hadd
      exact h
    · rw [if_pos hp] at hadd
      cases hadd
      intro i hi j hj
      rw [RequestTable.state_setState tbl k i _ hk] at hi
      rw [RequestTable.state_setState tbl k j _ hk]
      by_cases hik : i = k
      · rw [if_pos hik] at hi; cases hi
      · rw [if_neg hik] at hi
        have hilt : i < taskEntriesSize := tbl.lt_size_of_runnable i (Or.inr hi)
        have hik2 : i < k := by
          rcases Nat.lt_or_gt_of_ne hik with hlt | hgt
          · exact hlt
          · exact absurd hi (hguard i hilt hgt)
        rw [if_neg (by omega)]
        exact h i hi j hj

theorem run_continueFirst {σ : Type} (cb : Callbacks σ) (ops : List Op) :
    ∀ s s1 : Sched σ, s.tbl.ContinueFirst → Sched.addsInOrder cb s ops = true →
      Sched.run cb s ops = some s1 → s1.tbl.ContinueFirst := by
  induction ops with
  | nil =>
    intro s s1 h _ hrun
    simp only [Sched.run, Option.some.injEq] at hrun
    rw [← hrun]; exact h
  | cons op ops ih =>
    intro s s1 h hord hrun
    simp only [Sched.addsInOrder, Bool.and_eq_true] at hord
    simp only [Sched.run] at hrun
    cases hstep : s.step cb op with
    | none => rw [hstep] at hrun; cases hrun
    | some s2 =>
      rw [hstep] at hrun
      have hord2 : Sched.addsInOrder cb s2 ops = true := by
        have := hord.2; rw [hstep] at this; exact this
      refine ih s2 s1 ?_ hord2 hrun
      cases op with
      | addTask name option =>
        simp only [Sched.step] at hstep
        cases hadd : CU_TASK_addTask name option s.tbl with
        | exited c t p => rw [hadd] at hstep; cases hstep
        | returned t p =>
          rw [hadd] at hstep
          simp only [Option.some.injEq] at hstep
          rw [← hstep]
          exact addTask_continueFirst name option s.tbl t p h hord.1 hadd
      | update time =>
        simp only [Sched.step, Option.some.injEq] at hstep
        rw [← hstep]
        exact update_continueFirst cb s.tbl s.world time h

/-! ## Claims about the single active task and about `CU_TASK_addTask` -/

/-- C1 (counterexample): requesting "program", ticking once, requesting "info"
and ticking once more reaches, from the zeroed request table, a table in which
both "info" and "program" are in state `CONTINUE`. -/
theorem C1_two_continue_after_late_request :
    (Sched.run (Callbacks.const .CONTINUE) (Sched.start ())
        [.addTask "program" 0, .update 1, .addTask "info" 0, .update 1]).map
      (fun s => (s.tbl.entries.map (fun r => r.state), s.tbl.countState .CONTINUE)) =
      some ([.CONTINUE, .CONTINUE, .NONE], 2) := by
  decide

/-- C1 (amended): in every state reached from the zeroed request table by a
finite interleaving of `CU_TASK_addTask` and `CU_TASK_update` calls in which no
`CU_TASK_addTask` call names an entry that precedes, in registry order, an entry
currently in state `CONTINUE`, whatever the callbacks do, at most one entry of
the request table is in state `CONTINUE`. -/
theorem C1_single_continue_when_adds_in_order {σ : Type} (cb : Callbacks σ) (world : σ)
    (ops : List Op) (s : Sched σ)
    (hord : Sched.addsInOrder cb (Sched.start world) ops = true)
    (hrun : Sched.run cb (Sched.start world) ops = some s) :
    s.tbl.countState .CONTINUE ≤ 1 :=
  (run_continueFirst cb ops (Sched.start world) s RequestTable.zeroed_continueFirst
    hord hrun).count_le_one

/-- C1 (witness): an interleaving with a request made while "info" is running;
it ends with "info" `DONE`, "program" `CONTINUE` and "reset" `PENDING`. -/
theorem C1_single_continue_when_adds_in_order_witness :
    Sched.run (Callbacks.const .DONE) (Sched.start ())
        [.addTask "reset" 0, .addTask "info" 0, .update 1, .addTask "program" 0,
          .update 1, .update 1] =
      some ⟨RequestTable.ofEntries ⟨.DONE, 0⟩ ⟨.CONTINUE, 0⟩ ⟨.PENDING, 0⟩, (),
        [.init 0 .CU_TASK_INFO_prepare, .update 0 .CU_TASK_INFO_update 1,
          .init 1 .CU_TASK_PROGRAM_prepare]⟩ ∧
    (RequestTable.ofEntries ⟨.DONE, 0⟩ ⟨.CONTINUE, 0⟩ ⟨.PENDING, 0⟩).countState
      .CONTINUE ≤ 1 :=
  ⟨rfl, C1_single_continue_when_adds_in_order (Callbacks.const .DONE) ()
    [.addTask "reset" 0, .addTask "info" 0, .update 1, .addTask "program" 0,
      .update 1, .update 1] _ (by decide) rfl⟩

/-- C2 (counterexample): with "info" in state `CONTINUE`, `CU_TASK_addTask("info", 0)`
returns with "info" set back to `PENDING`, so the request table has changed. -/
theorem C2_request_of_continue_changes_table :
    CU_TASK_addTask "info" 0 (RequestTable.ofEntries ⟨.CONTINUE, 0⟩ ⟨.NONE, 0⟩ ⟨.NONE, 0⟩) =
        .returned (RequestTable.ofEntries ⟨.PENDING, 0⟩ ⟨.NONE, 0⟩ ⟨.NONE, 0⟩)
          ["Adding Task: info\r\n"] ∧
      RequestTable.ofEntries ⟨.PENDING, 0⟩ ⟨.NONE, 0⟩ ⟨.NONE, 0⟩ ≠
        RequestTable.ofEntries ⟨.CONTINUE, 0⟩ ⟨.NONE, 0⟩ ⟨.NONE, 0⟩ := by
  decide

/-- C2 (amended): for every registry task name and every option, calling
`CU_TASK_addTask` for a task whose state is already `PENDING` is a no-op (it
returns with the request table unchanged and prints nothing); for a task whose
state is `CONTINUE` it is not: it returns with that entry's state set back to
`PENDING`, its option and every other entry unchanged. -/
theorem C2_addTask_noop_iff_pending (name : String) (option : Int) (tbl : RequestTable)
    (k : Nat) (hname : taskIndex name = some k) :
    (tbl.state k = .PENDING → CU_TASK_addTask name option tbl = .returned tbl []) ∧
    (tbl.state k = .CONTINUE →
      ∃ t1, CU_TASK_addTask name option tbl =
          .returned t1 ["Adding Task: " ++ name ++ "\r\n"] ∧
        t1.state k = .PENDING ∧ (t1.get k).option = (tbl.get k).option ∧
        (∀ j, j ≠ k → t1.get j = tbl.get j) ∧ t1 ≠ tbl) := by
  have hk := taskIndex_lt name k hname
  constructor
  · intro hp
    rw [addTask_of_index name option tbl k hname, if_neg (not_not.2 hp)]
  · intro hc
    have hne : tbl.state k ≠ .PENDING := by rw [hc]; decide
    refine ⟨tbl.setState k .PENDING, ?_, ?_, ?_, ?_, ?_⟩
    · rw [addTask_of_index name option tbl k hname, if_pos hne]
    · rw [RequestTable.state_setState tbl k k _ hk, if_pos rfl]
    · exact RequestTable.option_setState tbl k k _ hk
    · intro j hj
      rw [RequestTable.get_setState tbl k j _ hk, if_neg hj]
    · intro heq
      have := RequestTable.state_setState tbl k k .PENDING hk
      rw [heq, if_pos rfl] at this
      exact hne this

/-- C2 (witness): "reset" already `PENDING`, and "info" in state `CONTINUE`. -/
theorem C2_addTask_noop_iff_pending_witness :
    CU_TASK_addTask "reset" 7
        (RequestTable.ofEntries ⟨.CONTINUE, 0⟩ ⟨.NONE, 0⟩ ⟨.PENDING, 0⟩) =
      .returned (RequestTable.ofEntries ⟨.CONTINUE, 0⟩ ⟨.NONE, 0⟩ ⟨.PENDING, 0⟩) [] ∧
    ∃ t1, CU_TASK_addTask "info" 7
          (RequestTable.ofEntries ⟨.CONTINUE, 0⟩ ⟨.NONE, 0⟩ ⟨.PENDING, 0⟩) =
        .returned t1 ["Adding Task: " ++ "info" ++ "\r\n"] ∧
      t1.state 0 = .PENDING ∧
      (t1.get 0).option =
        ((RequestTable.ofEntries ⟨.CONTINUE, 0⟩ ⟨.NONE, 0⟩ ⟨.PENDING, 0⟩).get 0).option ∧
      (∀ j, j ≠ 0 → t1.get j =
        (RequestTable.ofEntries ⟨.CONTINUE, 0⟩ ⟨.NONE, 0⟩ ⟨.PENDING, 0⟩).get j) ∧
      t1 ≠ RequestTable.ofEntries ⟨.CONTINUE, 0⟩ ⟨.NONE, 0⟩ ⟨.PENDING, 0⟩ :=
  ⟨(C2_addTask_noop_iff_pending "reset" 7 _ 2 (by decide)).1 (by decide),
    (C2_addTask_noop_iff_pending "info" 7 _ 0 (by decide)).2 (by decide)⟩

/-- C3 (evaluation at the failing input): from the zeroed request table,
`CU_TASK_addTask("program", 5)` returns with "program" `PENDING` and the other
entries unchanged, but the option field of "program" is still `0`, not `5`. -/
theorem C3_option_not_stored :
    CU_TASK_addTask "program" 5 RequestTable.zeroed =
        .returned (RequestTable.ofEntries ⟨.NONE, 0⟩ ⟨.PENDING, 0⟩ ⟨.NONE, 0⟩)
          ["Adding Task: program\r\n"] ∧
      ((RequestTable.ofEntries ⟨.NONE, 0⟩ ⟨.PENDING, 0⟩ ⟨.NONE, 0⟩).get 1).option ≠ 5 := by
  decide

/-- C4: `CU_TASK_addTask` ends by `exit(-1)`, with the request table as it was
before the call, for every name other than "info", "program" and "reset"; and
whenever it ends by `exit`, the name is none of these three, the exit code is
`-1` and the request table is as it was before the call. -/
theorem C4_addTask_exits_iff_unknown (name : String) (option : Int) (tbl : RequestTable) :
    ((name ≠ "info" ∧ name ≠ "program" ∧ name ≠ "reset") →
      CU_TASK_addTask name option tbl =
        .exited (-1) tbl ["Invalid argument passed: " ++ name ++ "\r\n"]) ∧
    (∀ code t printed, CU_TASK_addTask name option tbl = .exited code t printed →
      (name ≠ "info" ∧ name ≠ "program" ∧ name ≠ "reset") ∧ code = -1 ∧ t = tbl) := by
  constructor
  · intro h
    exact addTask_of_unknown name option tbl ((taskIndex_eq_none name).2 h)
  · intro code t printed hexit
    cases hidx : taskIndex name with
    | none =>
      rw [addTask_of_unknown name option tbl hidx] at hexit
      cases hexit
      exact ⟨(taskIndex_eq_none name).1 hidx, rfl, rfl⟩
    | some k =>
      rw [addTask_of_index name option tbl k hidx] at hexit
      split at hexit <;> cases hexit

/-- C4 (instance): the name "bogus" on the zeroed request table. -/
theorem C4_addTask_exits_iff_unknown_witness :
    CU_TASK_addTask "bogus" 0 RequestTable.zeroed =
      .exited (-1) RequestTable.zeroed ["Invalid argument passed: " ++ "bogus" ++ "\r\n"] :=
  (C4_addTask_exits_iff_unknown "bogus" 0 RequestTable.zeroed).1 (by decide)

/-! ## Claims about one call of `CU_TASK_update` -/

/-- C5: when the first entry in registry order whose state is `PENDING` or
`CONTINUE` is entry `k` and is in state `CONTINUE`, `CU_TASK_update` invokes the
update callback of entry `k` once, with the given elapsed time, and nothing
else.  With `r` the callback result: `r = DONE` makes the entry `DONE` and the
return value `DONE`; `r = CONTINUE` leaves the entry `CONTINUE` and returns
`CONTINUE`; every other `r` makes the entry `ERROR` and returns `ERROR`.  In
all cases the option of entry `k` and every other entry are unchanged. -/
theorem C5_update_of_running_entry {σ : Type} (cb : Callbacks σ) (tbl : RequestTable)
    (world : σ) (time k : Nat) (e : CU_TASK_Entry) (hk : tbl.FirstRunnable k)
    (hs : tbl.state k = .CONTINUE) (he : taskEntries[k]? = some e) :
    (CU_TASK_update cb tbl world time).calls = [.update k e.updateCallback time] ∧
    (CU_TASK_update cb tbl world time).world = (cb.update e.updateCallback world time).2 ∧
    ((cb.update e.updateCallback world time).1 = .DONE →
      (CU_TASK_update cb tbl world time).status = .DONE ∧
      (CU_TASK_update cb tbl world time).tbl.state k = .DONE) ∧
    ((cb.update e.updateCallback world time).1 = .CONTINUE →
      (CU_TASK_update cb tbl world time).status = .CONTINUE ∧
      (CU_TASK_update cb tbl world time).tbl.state k = .CONTINUE) ∧
    ((cb.update e.updateCallback world time).1 ≠ .DONE →
      (cb.update e.updateCallback world time).1 ≠ .CONTINUE →
      (CU_TASK_update cb tbl world time).status = .ERROR ∧
      (CU_TASK_update cb tbl world time).tbl.state k = .ERROR) ∧
    ((CU_TASK_update cb tbl world time).tbl.get k).option = (tbl.get k).option ∧
    (∀ j, j ≠ k → (CU_TASK_update cb tbl world time).tbl.get j = tbl.get j) := by
  rw [update_of_continue cb tbl world time k e hk he hs]
  have hset : ∀ st : CU_TASK_STATUS, (tbl.setState k st).state k = st := fun st => by
    rw [RequestTable.state_setState tbl k k st hk.1, if_pos rfl]
  have hopt : ∀ st : CU_TASK_STATUS, ((tbl.setState k st).get k).option = (tbl.get k).option :=
    fun st => RequestTable.option_setState tbl k k st hk.1
  have hoth : ∀ st : CU_TASK_STATUS, ∀ j, j ≠ k → (tbl.setState k st).get j = tbl.get j :=
    fun st j hj => by rw [RequestTable.get_setState tbl k j st hk.1, if_neg hj]
  by_cases hd : (cb.update e.updateCallback world time).1 = .DONE
  · rw [if_pos hd]
    refine ⟨rfl, rfl, fun _ => ⟨rfl, hset _⟩, fun hc => ?_, fun hnd => absurd hd hnd,
      hopt _, hoth _⟩
    rw [hd] at hc; cases hc
  · rw [if_neg hd]
    by_cases hc : (cb.update e.updateCallback world time).1 = .CONTINUE
    · rw [if_pos hc]
      exact ⟨rfl, rfl, fun h => absurd h hd, fun _ => ⟨rfl, hs⟩,
        fun _ hnc => absurd hc hnc, rfl, fun _ _ => rfl⟩
    · rw [if_neg hc]
      exact ⟨rfl, rfl, fun h => absurd h hd, fun h => absurd h hc,
        fun _ _ => ⟨rfl, hset _⟩, hopt _, hoth _⟩

/-- C5 (witness): "info" is `DONE`, "program" is `CONTINUE`, "reset" is `PENDING`,
and the update callback of "program" reports an error. -/
theorem C5_update_of_running_entry_witness :
    (CU_TASK_update (Callbacks.const .ERROR)
        (RequestTable.ofEntries ⟨.DONE, 0⟩ ⟨.CONTINUE, 3⟩ ⟨.PENDING, 0⟩) () 10).calls =
      [.update 1 .CU_TASK_PROGRAM_update 10] ∧
    (CU_TASK_update (Callbacks.const .ERROR)
        (RequestTable.ofEntries ⟨.DONE, 0⟩ ⟨.CONTINUE, 3⟩ ⟨.PENDING, 0⟩) () 10).status =
      .ERROR ∧
    (CU_TASK_update (Callbacks.const .ERROR)
        (RequestTable.ofEntries ⟨.DONE, 0⟩ ⟨.CONTINUE, 3⟩ ⟨.PENDING, 0⟩) () 10).tbl.state 1 =
      .ERROR :=
  have h := C5_update_of_running_entry (Callbacks.const .ERROR)
    (RequestTable.ofEntries ⟨.DONE, 0⟩ ⟨.CONTINUE, 3⟩ ⟨.PENDING, 0⟩) () 10 1
    ⟨"program", .CU_TASK_PROGRAM_prepare, .CU_TASK_PROGRAM_update⟩
    (by decide) (by decide) (by decide)
  ⟨h.1, (h.2.2.2.2.1 (by decide) (by decide)).1, (h.2.2.2.2.1 (by decide) (by decide)).2⟩

/-! ## Runs of ticks -/

theorem RequestTable.setState_self (t : RequestTable) (k : Nat) :
    t.setState k (t.state k) = t := by
  apply RequestTable.eq_of_entries
  unfold RequestTable.setState RequestTable.state RequestTable.get
  simp only [List.getD_eq_getElem?_getD]
  by_cases hk : k < t.entries.length
  · rw [List.getElem?_eq_getElem hk]
    apply List.ext_getElem?
    intro n
    rw [List.getElem?_set]
    by_cases hn : k = n
    · subst hn
      simp [hk]
    · rw [if_neg hn]
  · exact List.set_eq_of_length_le (Nat.le_of_not_lt hk)

/-- What one tick does to the request table and to the history of calls. -/
theorem tick_summary {σ : Type} (cb : Callbacks σ) (s : Sched σ) (time : Nat) :
    ((∀ j, ¬ (s.tbl.state j).runnable) ∧ (s.tick cb time).tbl = s.tbl ∧
        (s.tick cb time).world = s.world ∧ (s.tick cb time).calls = s.calls) ∨
    (∃ k e, s.tbl.FirstRunnable k ∧ taskEntries[k]? = some e ∧ s.tbl.state k = .PENDING ∧
        (s.tick cb time).tbl = s.tbl.setState k .CONTINUE ∧
        (s.tick cb time).calls = s.calls ++ [.init k e.initCallback]) ∨
    (∃ k e st, s.tbl.FirstRunnable k ∧ taskEntries[k]? = some e ∧
        s.tbl.state k = .CONTINUE ∧ (st = .DONE ∨ st = .CONTINUE ∨ st = .ERROR) ∧
        (s.tick cb time).tbl = s.tbl.setState k st ∧
        (s.tick cb time).calls = s.calls ++ [.update k e.updateCallback time]) := by
  unfold Sched.tick
  rcases update_cases cb s.tbl s.world time with ⟨hidle, heq⟩ | ⟨k, e, hk, he, hs, heq⟩ |
      ⟨k, e, hk, he, hs, st, _, _, hcalls, hcase⟩
  · refine Or.inl ⟨hidle, ?_, ?_, ?_⟩ <;> simp only [heq, List.append_nil]
  · refine Or.inr (Or.inl ⟨k, e, hk, he, hs, ?_, ?_⟩) <;> simp only [heq]
  · rcases hcase with ⟨_, _, ht⟩ | ⟨_, _, ht⟩ | ⟨_, _, _, ht⟩
    · exact Or.inr (Or.inr ⟨k, e, .DONE, hk, he, hs, Or.inl rfl, ht, by simp only [hcalls]⟩)
    · refine Or.inr (Or.inr ⟨k, e, .CONTINUE, hk, he, hs, Or.inr (Or.inl rfl), ?_,
        by simp only [hcalls]⟩)
      simp only [ht]
      rw [← hs, RequestTable.setState_self]
    · exact Or.inr (Or.inr ⟨k, e, .ERROR, hk, he, hs, Or.inr (Or.inr rfl), ht,
        by simp only [hcalls]⟩)

theorem getElem?_append_singleton_cases {α : Type} (l : List α) (c d : α) (n : Nat)
    (h : (l ++ [c])[n]? = some d) : l[n]? = some d ∨ (n = l.length ∧ c = d) := by
  by_cases hn : n < l.length
  · rw [List.getElem?_append_left hn] at h
    exact Or.inl h
  · rw [List.getElem?_append_right (Nat.le_of_not_lt hn)] at h
    by_cases h0 : n - l.length = 0
    · rw [h0] at h
      simp only [List.getElem?_cons_zero, Option.some.injEq] at h
      exact Or.inr ⟨by omega, h⟩
    · obtain ⟨m, hm⟩ := Nat.exists_eq_succ_of_ne_zero h0
      rw [hm] at h
      simp at h

theorem getElem?_append_of_some {α : Type} (l r : List α) (d : α) (m : Nat)
    (h : l[m]? = some d) : (l ++ r)[m]? = some d := by
  have hm : m < l.length := by
    by_contra hc
    rw [List.getElem?_eq_none (Nat.le_of_not_lt hc)] at h
    cases h
  rw [List.getElem?_append_left hm]
  exact h

theorem lt_length_of_getElem? {α : Type} (l : List α) (d : α) (m : Nat)
    (h : l[m]? = some d) : m < l.length := by
  by_contra hc
  rw [List.getElem?_eq_none (Nat.le_of_not_lt hc)] at h
  cases h


theorem tick_pairOrder {σ : Type} (cb : Callbacks σ) (s : Sched σ) (time i j : Nat)
    (ei : CU_TASK_Entry) (hij : i < j) (hei : taskEntries[i]? = some ei)
    (h : s.PairOrder i j ei.initCallback) :
    (s.tick cb time).PairOrder i j ei.initCallback := by
  obtain ⟨ha, hb, hc⟩ := h
  have hji : j ≠ i := Nat.ne_of_gt hij
  rcases tick_summary cb s time with ⟨_, htbl, _, hcalls⟩ | ⟨k, e, hk, he, hs, htbl, hcalls⟩ |
      ⟨k, e, st, hk, he, hs, hst, htbl, hcalls⟩
  · unfold Sched.PairOrder
    rw [htbl, hcalls]
    exact ⟨ha, hb, hc⟩
  · have hstate : ∀ x, (s.tick cb time).tbl.state x =
        if x = k then .CONTINUE else s.tbl.state x := fun x => by
      rw [htbl, RequestTable.state_setState s.tbl k x _ hk.1]
    unfold Sched.PairOrder
    rw [hcalls, hstate i, hstate j]
    refine ⟨?_, ?_, ?_⟩
    · intro hrun
      have hold : (s.tbl.state i).runnable := by
        by_cases hik : i = k
        · rw [hik]; exact Or.inl hs
        · rwa [if_neg hik] at hrun
      have hjk : j ≠ k := fun hjk => hk.2.2 i (by rw [← hjk]; exact hij) hold
      obtain ⟨hjp, hno⟩ := ha hold
      rw [if_neg hjk]
      refine ⟨hjp, ?_⟩
      intro c hcmem
      rcases List.mem_append.1 hcmem with hmem | hmem
      · exact hno c hmem
      · rw [List.mem_singleton] at hmem
        rw [hmem]
        simp only [Call.isInit, beq_eq_false_iff_ne, ne_eq]
        exact fun hkj => hjk hkj.symm
    · intro hne
      by_cases hik : i = k
      · have hee : e = ei := by
          rw [← hik, hei] at he
          exact (Option.some.inj he).symm
        rw [hik, hee]
        exact List.mem_append_right _ (List.mem_singleton.2 rfl)
      · rw [if_neg hik] at hne
        exact List.mem_append_left _ (hb hne)
    · intro n f hn
      rcases getElem?_append_singleton_cases _ _ _ n hn with hold | ⟨hlen, heq⟩
      · obtain ⟨m, hm, hmem⟩ := hc n f hold
        exact ⟨m, hm, getElem?_append_of_some _ _ _ m hmem⟩
      · have hkj : k = j := by cases heq; rfl
        have hnot : ¬ (s.tbl.state i).runnable := hk.2.2 i (by rw [hkj]; exact hij)
        have hne : s.tbl.state i ≠ .PENDING := fun hp => hnot (Or.inl hp)
        obtain ⟨m, hm⟩ := List.mem_iff_getElem?.1 (hb hne)
        exact ⟨m, by rw [hlen]; exact lt_length_of_getElem? _ _ m hm,
          getElem?_append_of_some _ _ _ m hm⟩
  · have hstate : ∀ x, (s.tick cb time).tbl.state x =
        if x = k then st else s.tbl.state x := fun x => by
      rw [htbl, RequestTable.state_setState s.tbl k x _ hk.1]
    unfold Sched.PairOrder
    rw [hcalls, hstate i, hstate j]
    refine ⟨?_, ?_, ?_⟩
    · intro hrun
      have hold : (s.tbl.state i).runnable := by
        by_cases hik : i = k
        · rw [hik]; exact Or.inr hs
        · rwa [if_neg hik] at hrun
      obtain ⟨hjp, hno⟩ := ha hold
      have hjk : j ≠ k := by
        intro hjk
        rw [hjk, hs] at hjp
        cases hjp
      rw [if_neg hjk]
      refine ⟨hjp, ?_⟩
      intro c hcmem
      rcases List.mem_append.1 hcmem with hmem | hmem
      · exact hno c hmem
      · rw [List.mem_singleton] at hmem
        rw [hmem]
        rfl
    · intro hne
      refine List.mem_append_left _ (hb ?_)
      by_cases hik : i = k
      · rw [hik, hs]; decide
      · rwa [if_neg hik] at hne
    · intro n f hn
      rcases getElem?_append_singleton_cases _ _ _ n hn with hold | ⟨_, heq⟩
      · obtain ⟨m, hm, hmem⟩ := hc n f hold
        exact ⟨m, hm, getElem?_append_of_some _ _ _ m hmem⟩
      · cases heq

theorem ticks_pairOrder {σ : Type} (cb : Callbacks σ) (i j : Nat) (ei : CU_TASK_Entry)
    (hij : i < j) (hei : taskEntries[i]? = some ei) (times : List Nat) :
    ∀ s : Sched σ, s.PairOrder i j ei.initCallback →
      (s.ticks cb times).PairOrder i j ei.initCallback := by
  induction times with
  | nil => intro s h; exact h
  | cons t ts ih =>
    intro s h
    exact ih (s.tick cb t) (tick_pairOrder cb s t i j ei hij hei h)

/-- C6: starting from a request table in which entries `i < j` are both
`PENDING` (in particular "program" and "reset"), along every sequence of
`CU_TASK_update` calls and whatever the callbacks return, every invocation of
the init callback of entry `j` comes after an invocation of the init callback of
entry `i`, and as long as entry `i` is `PENDING` or `CONTINUE` entry `j` is
still `PENDING` (so it has not been moved to `CONTINUE`). -/
theorem C6_activation_in_registry_order {σ : Type} (cb : Callbacks σ) (tbl : RequestTable)
    (world : σ) (i j : Nat) (ei : CU_TASK_Entry) (times : List Nat) (hij : i < j)
    (hei : taskEntries[i]? = some ei) (hi : tbl.state i = .PENDING)
    (hj : tbl.state j = .PENDING) :
    (∀ (n : Nat) (f : InitCallback),
      ((Sched.mk tbl world []).ticks cb times).calls[n]? = some (.init j f) →
        ∃ m, m < n ∧
          ((Sched.mk tbl world []).ticks cb times).calls[m]? =
            some (.init i ei.initCallback)) ∧
    ((((Sched.mk tbl world []).ticks cb times).tbl.state i).runnable →
      ((Sched.mk tbl world []).ticks cb times).tbl.state j = .PENDING) := by
  have h0 : (Sched.mk tbl world []).PairOrder i j ei.initCallback := by
    refine ⟨fun _ => ⟨hj, fun c hc => by cases hc⟩, fun hne => absurd hi hne, ?_⟩
    intro n f hn
    simp at hn
  obtain ⟨ha, _, hc⟩ := ticks_pairOrder cb i j ei hij hei times _ h0
  exact ⟨hc, fun hrun => (ha hrun).1⟩

/-- C6 (witness): "program" and "reset" both `PENDING`, five ticks, every update
callback reporting `DONE`: the init callback of "program" is the first call, the
one of "reset" the third. -/
theorem C6_activation_in_registry_order_witness :
    ((Sched.mk (RequestTable.ofEntries ⟨.NONE, 0⟩ ⟨.PENDING, 0⟩ ⟨.PENDING, 0⟩) () []).ticks
        (Callbacks.const .DONE) [1, 1, 1, 1, 1]).calls =
      [.init 1 .CU_TASK_PROGRAM_prepare, .update 1 .CU_TASK_PROGRAM_update 1,
        .init 2 .CU_TASK_RESET_prepare, .update 2 .CU_TASK_RESET_update 1] ∧
    ∃ m, m < 2 ∧
      ((Sched.mk (RequestTable.ofEntries ⟨.NONE, 0⟩ ⟨.PENDING, 0⟩ ⟨.PENDING, 0⟩) () []).ticks
        (Callbacks.const .DONE) [1, 1, 1, 1, 1]).calls[m]? =
        some (.init 1 .CU_TASK_PROGRAM_prepare) :=
  ⟨rfl, (C6_activation_in_registry_order (Callbacks.const .DONE)
    (RequestTable.ofEntries ⟨.NONE, 0⟩ ⟨.PENDING, 0⟩ ⟨.PENDING, 0⟩) () 1 2
    ⟨"program", .CU_TASK_PROGRAM_prepare, .CU_TASK_PROGRAM_update⟩ [1, 1, 1, 1, 1]
    (by decide) (by decide) (by decide) (by decide)).1 2 .CU_TASK_RESET_prepare rfl⟩

theorem not_runnable_of_idle (s : CU_TASK_STATUS) (h : s.idle) : ¬ s.runnable := by
  rcases h with h | h | h <;> rw [h] <;> decide

theorem RequestTable.state_of_size_le (t : RequestTable) (j : Nat)
    (h : taskEntriesSize ≤ j) : t.state j = .NONE := by
  unfold RequestTable.state
  rw [t.get_of_size_le j h]

theorem RequestTable.not_runnable_of_all_idle (t : RequestTable)
    (h : ∀ k, k < taskEntriesSize → (t.state k).idle) (j : Nat) :
    ¬ (t.state j).runnable := by
  by_cases hj : j < taskEntriesSize
  · exact not_runnable_of_idle _ (h j hj)
  · rw [t.state_of_size_le j (Nat.le_of_not_lt hj)]
    decide

/-- C7: with "info" in state `ERROR`, "program" neither `PENDING` nor `CONTINUE`
and "reset" `PENDING`, `CU_TASK_update` invokes the init callback of "reset" and
nothing else, sets "reset" to `CONTINUE`, returns `CONTINUE` and leaves every
other entry, "info" included, as it was.  And for every request table, an entry
in state `NONE`, `DONE` or `ERROR` has no callback invoked by `CU_TASK_update`
and is left unchanged. -/
theorem C7_error_does_not_stop_scheduler {σ : Type} (cb : Callbacks σ) (tbl : RequestTable)
    (world : σ) (time i p r : Nat) (hi : taskIndex "info" = some i)
    (hp : taskIndex "program" = some p) (hr : taskIndex "reset" = some r)
    (hinfo : tbl.state i = .ERROR) (hprogram : ¬ (tbl.state p).runnable)
    (hreset : tbl.state r = .PENDING) :
    ((CU_TASK_update cb tbl world time).calls = [.init r .CU_TASK_RESET_prepare] ∧
      (CU_TASK_update cb tbl world time).world = cb.init .CU_TASK_RESET_prepare world ∧
      (CU_TASK_update cb tbl world time).status = .CONTINUE ∧
      (CU_TASK_update cb tbl world time).tbl.state r = .CONTINUE ∧
      (CU_TASK_update cb tbl world time).tbl.state i = .ERROR ∧
      ∀ j, j ≠ r → (CU_TASK_update cb tbl world time).tbl.get j = tbl.get j) ∧
    (∀ (t : RequestTable) (w : σ) (time2 k : Nat), (t.state k).idle →
      (∀ c ∈ (CU_TASK_update cb t w time2).calls, c.entry ≠ k) ∧
      (CU_TASK_update cb t w time2).tbl.get k = t.get k) := by
  constructor
  · have hi0 : i = 0 := by have := (taskIndex_eq_some _ _).1 hi; simpa using this
    have hp1 : p = 1 := by have := (taskIndex_eq_some _ _).1 hp; simpa using this
    have hr2 : r = 2 := by have := (taskIndex_eq_some _ _).1 hr; simpa using this
    subst hi0 hp1 hr2
    have hfirst : tbl.FirstRunnable 2 := by
      refine ⟨by decide, Or.inl hreset, ?_⟩
      intro j hj
      have hj01 : j = 0 ∨ j = 1 := by omega
      rcases hj01 with h | h
      · rw [h, hinfo]; decide
      · rw [h]; exact hprogram
    rw [update_of_pending cb tbl world time 2
      ⟨"reset", .CU_TASK_RESET_prepare, .CU_TASK_RESET_update⟩ hfirst rfl hreset]
    refine ⟨rfl, rfl, rfl, ?_, ?_, ?_⟩
    · rw [RequestTable.state_setState tbl 2 2 _ hfirst.1, if_pos rfl]
    · rw [RequestTable.state_setState tbl 2 0 _ hfirst.1, if_neg (by decide)]
      exact hinfo
    · intro j hj
      rw [RequestTable.get_setState tbl 2 j _ hfirst.1, if_neg hj]
  · intro t w time2 k hidle
    have hnr := not_runnable_of_idle _ hidle
    rcases update_cases cb t w time2 with ⟨_, heq⟩ | ⟨k2, e, hk, _, hs, heq⟩ |
        ⟨k2, e, hk, _, hs, st, _, _, hcalls, hcase⟩
    · rw [heq]
      exact ⟨fun c hc => (by cases hc), rfl⟩
    · have hkk : k ≠ k2 := fun h => hnr (by rw [h]; exact Or.inl hs)
      rw [heq]
      refine ⟨fun c hc => ?_, ?_⟩
      · rw [List.mem_singleton] at hc
        rw [hc]
        exact fun h => hkk h.symm
      · rw [RequestTable.get_setState t k2 k _ hk.1, if_neg hkk]
    · have hkk : k ≠ k2 := fun h => hnr (by rw [h]; exact Or.inr hs)
      refine ⟨fun c hc => ?_, ?_⟩
      · rw [hcalls, List.mem_singleton] at hc
        rw [hc]
        exact fun h => hkk h.symm
      · rcases hcase with ⟨_, _, ht⟩ | ⟨_, _, ht⟩ | ⟨_, _, _, ht⟩
        · rw [ht, RequestTable.get_setState t k2 k _ hk.1, if_neg hkk]
        · rw [ht]
        · rw [ht, RequestTable.get_setState t k2 k _ hk.1, if_neg hkk]

/-- C7 (witness): "info" in `ERROR`, "program" `DONE`, "reset" `PENDING`. -/
theorem C7_error_does_not_stop_scheduler_witness :
    (CU_TASK_update (Callbacks.const .DONE)
        (RequestTable.ofEntries ⟨.ERROR, 0⟩ ⟨.DONE, 0⟩ ⟨.PENDING, 0⟩) () 4).calls =
      [.init 2 .CU_TASK_RESET_prepare] ∧
    (CU_TASK_update (Callbacks.const .DONE)
        (RequestTable.ofEntries ⟨.ERROR, 0⟩ ⟨.DONE, 0⟩ ⟨.PENDING, 0⟩) () 4).status =
      .CONTINUE ∧
    (CU_TASK_update (Callbacks.const .DONE)
        (RequestTable.ofEntries ⟨.ERROR, 0⟩ ⟨.DONE, 0⟩ ⟨.PENDING, 0⟩) () 4).tbl.state 2 =
      .CONTINUE ∧
    (CU_TASK_update (Callbacks.const .DONE)
        (RequestTable.ofEntries ⟨.ERROR, 0⟩ ⟨.DONE, 0⟩ ⟨.PENDING, 0⟩) () 4).tbl.state 0 =
      .ERROR :=
  have h := (C7_error_does_not_stop_scheduler (Callbacks.const .DONE)
    (RequestTable.ofEntries ⟨.ERROR, 0⟩ ⟨.DONE, 0⟩ ⟨.PENDING, 0⟩) () 4 0 1 2
    (by decide) (by decide) (by decide) (by decide) (by decide) (by decide)).1
  ⟨h.1, h.2.2.1, h.2.2.2.1, h.2.2.2.2.1⟩

theorem ticks_of_idle {σ : Type} (cb : Callbacks σ) (s : Sched σ)
    (h : ∀ j, ¬ (s.tbl.state j).runnable) (times : List Nat) : s.ticks cb times = s := by
  induction times with
  | nil => rfl
  | cons t ts ih =>
    have htick : s.tick cb t = s := by
      unfold Sched.tick
      simp only [update_of_idle cb s.tbl s.world t h, List.append_nil]
    unfold Sched.ticks
    rw [htick]
    exact ih

/-- C8: when every entry of the request table is `NONE`, `DONE` or `ERROR`,
`CU_TASK_update` returns `DONE`, invokes no callback and leaves the request
table (and the external world) unchanged; so after any number of further
`CU_TASK_update` calls, with any elapsed times, the table is still the same and
the next call again returns `DONE` without invoking a callback. -/
theorem C8_idle_table_is_terminal {σ : Type} (cb : Callbacks σ) (tbl : RequestTable)
    (world : σ) (calls : List Call) (h : ∀ k, k < taskEntriesSize → (tbl.state k).idle) :
    (∀ time, CU_TASK_update cb tbl world time = ⟨.DONE, tbl, world, []⟩) ∧
    (∀ times : List Nat, (Sched.mk tbl world calls).ticks cb times = ⟨tbl, world, calls⟩) ∧
    (∀ (times : List Nat) (time : Nat),
      CU_TASK_update cb ((Sched.mk tbl world calls).ticks cb times).tbl
        ((Sched.mk tbl world calls).ticks cb times).world time = ⟨.DONE, tbl, world, []⟩) := by
  have hnr := tbl.not_runnable_of_all_idle h
  refine ⟨fun time => update_of_idle cb tbl world time hnr,
    fun times => ticks_of_idle cb _ hnr times, fun times time => ?_⟩
  rw [ticks_of_idle cb (Sched.mk tbl world calls) hnr times]
  exact update_of_idle cb tbl world time hnr

/-- C8 (witness): the table with "info" in `ERROR`, "program" `DONE`, "reset"
`NONE`; one call, and three further calls. -/
theorem C8_idle_table_is_terminal_witness :
    CU_TASK_update (Callbacks.const .CONTINUE)
        (RequestTable.ofEntries ⟨.ERROR, 0⟩ ⟨.DONE, 0⟩ ⟨.NONE, 0⟩) () 5 =
      ⟨.DONE, RequestTable.ofEntries ⟨.ERROR, 0⟩ ⟨.DONE, 0⟩ ⟨.NONE, 0⟩, (), []⟩ ∧
    (Sched.mk (RequestTable.ofEntries ⟨.ERROR, 0⟩ ⟨.DONE, 0⟩ ⟨.NONE, 0⟩) () []).ticks
        (Callbacks.const .CONTINUE) [1, 2, 3] =
      ⟨RequestTable.ofEntries ⟨.ERROR, 0⟩ ⟨.DONE, 0⟩ ⟨.NONE, 0⟩, (), []⟩ :=
  have h := C8_idle_table_is_terminal (Callbacks.const .CONTINUE)
    (RequestTable.ofEntries ⟨.ERROR, 0⟩ ⟨.DONE, 0⟩ ⟨.NONE, 0⟩) () [] (by decide)
  ⟨h.1 5, h.2.1 [1, 2, 3]⟩


/-- C9 (counterexample): with "info" in state `CONTINUE` and "reset" `PENDING`,
when the update callback of "info" reports `DONE`, `CU_TASK_update` returns
`DONE` although "reset" is still `PENDING` after the call. -/
theorem C9_done_returned_with_pending_left :
    (CU_TASK_update (Callbacks.const .DONE)
        (RequestTable.ofEntries ⟨.CONTINUE, 0⟩ ⟨.NONE, 0⟩ ⟨.PENDING, 0⟩) () 1).status =
      .DONE ∧
    (CU_TASK_update (Callbacks.const .DONE)
        (RequestTable.ofEntries ⟨.CONTINUE, 0⟩ ⟨.NONE, 0⟩ ⟨.PENDING, 0⟩) () 1).tbl =
      RequestTable.ofEntries ⟨.DONE, 0⟩ ⟨.NONE, 0⟩ ⟨.PENDING, 0⟩ ∧
    (RequestTable.ofEntries ⟨.DONE, 0⟩ ⟨.NONE, 0⟩ ⟨.PENDING, 0⟩).state 2 = .PENDING := by
  decide

/-- C9 (amended): if `CU_TASK_update` returns `DONE`, then either it invoked no
callback, left the request table unchanged and no entry is `PENDING` or
`CONTINUE`; or it invoked exactly the update callback of the first `PENDING` or
`CONTINUE` entry `k`, which was `CONTINUE` and whose callback reported `DONE`,
entry `k` is `DONE` after the call and no entry up to and including `k` is
`PENDING` or `CONTINUE` (the entries after `k` are unchanged). -/
theorem C9_done_means_one_task_or_all_done {σ : Type} (cb : Callbacks σ)
    (tbl : RequestTable) (world : σ) (time : Nat)
    (h : (CU_TASK_update cb tbl world time).status = .DONE) :
    ((CU_TASK_update cb tbl world time).calls = [] ∧
      (CU_TASK_update cb tbl world time).tbl = tbl ∧
      ∀ j, ¬ ((CU_TASK_update cb tbl world time).tbl.state j).runnable) ∨
    (∃ k e, tbl.FirstRunnable k ∧ tbl.state k = .CONTINUE ∧ taskEntries[k]? = some e ∧
      (cb.update e.updateCallback world time).1 = .DONE ∧
      (CU_TASK_update cb tbl world time).calls = [.update k e.updateCallback time] ∧
      (CU_TASK_update cb tbl world time).tbl.state k = .DONE ∧
      (∀ j, j ≤ k → ¬ ((CU_TASK_update cb tbl world time).tbl.state j).runnable) ∧
      ∀ j, j ≠ k → (CU_TASK_update cb tbl world time).tbl.get j = tbl.get j) := by
  rcases update_cases cb tbl world time with ⟨hidle, heq⟩ | ⟨k, e, _, _, _, heq⟩ |
      ⟨k, e, hk, he, hs, st, hst, _, hcalls, hcase⟩
  · left
    rw [heq]
    exact ⟨rfl, rfl, hidle⟩
  · rw [heq] at h
    cases h
  · right
    rw [h] at hst
    rcases hcase with ⟨hr, _, ht⟩ | ⟨_, hc, _⟩ | ⟨_, _, hc, _⟩
    · refine ⟨k, e, hk, hs, he, hr, hcalls, ?_, ?_, ?_⟩
      · rw [ht, RequestTable.state_setState tbl k k _ hk.1, if_pos rfl]
      · intro j hj
        rw [ht, RequestTable.state_setState tbl k j _ hk.1]
        by_cases hjk : j = k
        · rw [if_pos hjk]; decide
        · rw [if_neg hjk]
          exact hk.2.2 j (by omega)
      · intro j hj
        rw [ht, RequestTable.get_setState tbl k j _ hk.1, if_neg hj]
    · rw [← hst] at hc; cases hc
    · rw [← hst] at hc; cases hc

/-- C9 (witness): the call of the counterexample; it is the second case, with
`k = 0`, and "reset" is unchanged. -/
theorem C9_done_means_one_task_or_all_done_witness :
    ((CU_TASK_update (Callbacks.const .DONE)
          (RequestTable.ofEntries ⟨.CONTINUE, 0⟩ ⟨.NONE, 0⟩ ⟨.PENDING, 0⟩) () 1).calls = [] ∧
      (CU_TASK_update (Callbacks.const .DONE)
          (RequestTable.ofEntries ⟨.CONTINUE, 0⟩ ⟨.NONE, 0⟩ ⟨.PENDING, 0⟩) () 1).tbl =
        RequestTable.ofEntries ⟨.CONTINUE, 0⟩ ⟨.NONE, 0⟩ ⟨.PENDING, 0⟩ ∧
      ∀ j, ¬ ((CU_TASK_update (Callbacks.const .DONE)
          (RequestTable.ofEntries ⟨.CONTINUE, 0⟩ ⟨.NONE, 0⟩ ⟨.PENDING, 0⟩) () 1).tbl.state
            j).runnable) ∨
    (∃ k e, (RequestTable.ofEntries ⟨.CONTINUE, 0⟩ ⟨.NONE, 0⟩ ⟨.PENDING, 0⟩).FirstRunnable k ∧
      (RequestTable.ofEntries ⟨.CONTINUE, 0⟩ ⟨.NONE, 0⟩ ⟨.PENDING, 0⟩).state k = .CONTINUE ∧
      taskEntries[k]? = some e ∧
      ((Callbacks.const .DONE).update e.updateCallback () 1).1 = .DONE ∧
      (CU_TASK_update (Callbacks.const .DONE)
          (RequestTable.ofEntries ⟨.CONTINUE, 0⟩ ⟨.NONE, 0⟩ ⟨.PENDING, 0⟩) () 1).calls =
        [.update k e.updateCallback 1] ∧
      (CU_TASK_update (Callbacks.const .DONE)
          (RequestTable.ofEntries ⟨.CONTINUE, 0⟩ ⟨.NONE, 0⟩ ⟨.PENDING, 0⟩) () 1).tbl.state k =
        .DONE ∧
      (∀ j, j ≤ k → ¬ ((CU_TASK_update (Callbacks.const .DONE)
          (RequestTable.ofEntries ⟨.CONTINUE, 0⟩ ⟨.NONE, 0⟩ ⟨.PENDING, 0⟩) () 1).tbl.state
            j).runnable) ∧
      ∀ j, j ≠ k → (CU_TASK_update (Callbacks.const .DONE)
          (RequestTable.ofEntries ⟨.CONTINUE, 0⟩ ⟨.NONE, 0⟩ ⟨.PENDING, 0⟩) () 1).tbl.get j =
        (RequestTable.ofEntries ⟨.CONTINUE, 0⟩ ⟨.NONE, 0⟩ ⟨.PENDING, 0⟩).get j) :=
  C9_done_means_one_task_or_all_done (Callbacks.const .DONE)
    (RequestTable.ofEntries ⟨.CONTINUE, 0⟩ ⟨.NONE, 0⟩ ⟨.PENDING, 0⟩) () 1 (by decide)

theorem tick_no_pending {σ : Type} (cb : Callbacks σ) (s : Sched σ) (time k : Nat)
    (h : ∀ j, s.tbl.state j ≠ .PENDING) :
    (∀ j, (s.tick cb time).tbl.state j ≠ .PENDING) ∧
    (s.tick cb time).calls.countP (Call.isInit k) = s.calls.countP (Call.isInit k) ∧
    (∀ c ∈ s.calls, c ∈ (s.tick cb time).calls) := by
  rcases tick_summary cb s time with ⟨_, htbl, _, hcalls⟩ | ⟨k2, _, _, _, hs, _, _⟩ |
      ⟨k2, e, st, hk, _, _, hst, htbl, hcalls⟩
  · rw [htbl, hcalls]
    exact ⟨h, rfl, fun c hc => hc⟩
  · exact absurd hs (h k2)
  · rw [htbl, hcalls]
    refine ⟨fun j => ?_, ?_, fun c hc => List.mem_append_left _ hc⟩
    · rw [RequestTable.state_setState s.tbl k2 j _ hk.1]
      by_cases hj : j = k2
      · rw [if_pos hj]
        rcases hst with h1 | h1 | h1 <;> rw [h1] <;> decide
      · rw [if_neg hj]
        exact h j
    · rw [List.countP_append]
      simp [Call.isInit]

theorem ticks_no_pending {σ : Type} (cb : Callbacks σ) (k : Nat) (times : List Nat) :
    ∀ s : Sched σ, (∀ j, s.tbl.state j ≠ .PENDING) →
      (s.ticks cb times).calls.countP (Call.isInit k) = s.calls.countP (Call.isInit k) ∧
      (∀ c ∈ s.calls, c ∈ (s.ticks cb times).calls) := by
  induction times with
  | nil => intro s _; exact ⟨rfl, fun c hc => hc⟩
  | cons t ts ih =>
    intro s h
    obtain ⟨h1, h2, h3⟩ := tick_no_pending cb s t k h
    obtain ⟨h4, h5⟩ := ih (s.tick cb t) h1
    exact ⟨by rw [← h2]; exact h4, fun c hc => h5 c (h3 c hc)⟩

/-- C10: for every request table, registry task name and options `o1`, `o2`,
`CU_TASK_addTask(name, o1)` followed by `CU_TASK_addTask(name, o2)` returns and
leaves the same request table as `CU_TASK_addTask(name, o1)` alone; and from the
zeroed request table, after "program" has been requested twice, every non-empty
sequence of `CU_TASK_update` calls invokes the init callback of "program" exactly
once, whatever the callbacks return. -/
theorem C10_second_request_changes_nothing {σ : Type} (cb : Callbacks σ) (s : Sched σ)
    (world : σ) (name : String) (o1 o2 : Int) (k p : Nat) (times : List Nat)
    (hname : taskIndex name = some k) (hprogram : taskIndex "program" = some p)
    (htimes : times ≠ []) :
    (∃ s1, Sched.run cb s [.addTask name o1] = some s1 ∧
      Sched.run cb s [.addTask name o1, .addTask name o2] = some s1) ∧
    (∃ s2, Sched.run cb (Sched.start world) [.addTask "program" o1, .addTask "program" o2] =
        some s2 ∧
      ((s2.ticks cb times).calls.countP (Call.isInit p) = 1 ∧
        Call.init p .CU_TASK_PROGRAM_prepare ∈ (s2.ticks cb times).calls)) := by
  have hk := taskIndex_lt name k hname
  constructor
  · have hsnd : ∀ t : RequestTable, t.state k = .PENDING →
        CU_TASK_addTask name o2 t = .returned t [] := fun t ht => by
      rw [addTask_of_index name o2 t k hname, if_neg (not_not.2 ht)]
    by_cases hp : s.tbl.state k = .PENDING
    · refine ⟨s, ?_, ?_⟩
      · simp only [Sched.run, Sched.step, hsnd]
        rw [addTask_of_index name o1 s.tbl k hname, if_neg (not_not.2 hp)]
      · simp only [Sched.run, Sched.step]
        rw [addTask_of_index name o1 s.tbl k hname, if_neg (not_not.2 hp)]
        simp only [hsnd s.tbl hp]
    · have hset : (s.tbl.setState k .PENDING).state k = .PENDING := by
        rw [RequestTable.state_setState s.tbl k k _ hk, if_pos rfl]
      refine ⟨{ s with tbl := s.tbl.setState k .PENDING }, ?_, ?_⟩
      · simp only [Sched.run, Sched.step]
        rw [addTask_of_index name o1 s.tbl k hname, if_pos hp]
      · simp only [Sched.run, Sched.step]
        rw [addTask_of_index name o1 s.tbl k hname, if_pos hp]
        simp only [hsnd _ hset]
  · have hp1 : p = 1 := by have := (taskIndex_eq_some _ _).1 hprogram; simpa using this
    subst hp1
    refine ⟨⟨RequestTable.ofEntries ⟨.NONE, 0⟩ ⟨.PENDING, 0⟩ ⟨.NONE, 0⟩, world, []⟩, rfl, ?_⟩
    cases times with
    | nil => exact absurd rfl htimes
    | cons t ts =>
      have hfirst : (Sched.mk (RequestTable.ofEntries ⟨.NONE, 0⟩ ⟨.PENDING, 0⟩ ⟨.NONE, 0⟩)
          world []).tick cb t =
          ⟨RequestTable.ofEntries ⟨.NONE, 0⟩ ⟨.CONTINUE, 0⟩ ⟨.NONE, 0⟩,
            cb.init .CU_TASK_PROGRAM_prepare world, [.init 1 .CU_TASK_PROGRAM_prepare]⟩ := rfl
      have hnp : ∀ j, (RequestTable.ofEntries ⟨.NONE, 0⟩ ⟨.CONTINUE, 0⟩ ⟨.NONE, 0⟩).state j ≠
          .PENDING := by
        intro j
        by_cases hj : j < taskEntriesSize
        · rw [taskEntriesSize_eq] at hj
          interval_cases j <;> decide
        · rw [RequestTable.state_of_size_le _ j (Nat.le_of_not_lt hj)]
          decide
      unfold Sched.ticks
      rw [hfirst]
      obtain ⟨hcount, hmem⟩ := ticks_no_pending cb 1 ts
        ⟨RequestTable.ofEntries ⟨.NONE, 0⟩ ⟨.CONTINUE, 0⟩ ⟨.NONE, 0⟩,
          cb.init .CU_TASK_PROGRAM_prepare world, [.init 1 .CU_TASK_PROGRAM_prepare]⟩ hnp
      exact ⟨by rw [hcount]; rfl, hmem _ (List.mem_singleton.2 rfl)⟩

/-- C10 (witness): "program" requested twice, then four ticks with the update
callback reporting `DONE`; one init among the calls. -/
theorem C10_second_request_changes_nothing_witness :
    (∃ s1, Sched.run (Callbacks.const .DONE) (Sched.start ()) [.addTask "program" 0] =
        some s1 ∧
      Sched.run (Callbacks.const .DONE) (Sched.start ())
        [.addTask "program" 0, .addTask "program" 9] = some s1) ∧
    (∃ s2, Sched.run (Callbacks.const .DONE) (Sched.start ())
        [.addTask "program" 0, .addTask "program" 9] = some s2 ∧
      ((s2.ticks (Callbacks.const .DONE) [1, 1, 1, 1]).calls.countP (Call.isInit 1) = 1 ∧
        Call.init 1 .CU_TASK_PROGRAM_prepare ∈
          (s2.ticks (Callbacks.const .DONE) [1, 1, 1, 1]).calls)) :=
  C10_second_request_changes_nothing (Callbacks.const .DONE) (Sched.start ()) ()
    "program" 0 9 1 1 [1, 1, 1, 1] (by decide) (by decide) (by decide)

/-! ## The tick of the code against the tick of the specification -/

theorem firstInState_skip (tbl : RequestTable) (s : CU_TASK_STATUS)
    (pre rest : List CU_TASK_Entry) :
    ∀ i : Nat, (∀ j < pre.length, tbl.state (i + j) ≠ s) →
      firstInState tbl s (pre ++ rest) i = firstInState tbl s rest (i + pre.length) := by
  induction pre with
  | nil => intro i _; rfl
  | cons e pre ih =>
    intro i h
    have h0 : tbl.state i ≠ s := by simpa using h 0 (by simp)
    have hrest : ∀ j < pre.length, tbl.state (i + 1 + j) ≠ s := by
      intro j hj
      have := h (j + 1) (by simpa using hj)
      rwa [show i + (j + 1) = i + 1 + j by omega] at this
    rw [List.cons_append]
    show (if tbl.state i = s then some (i, e)
      else firstInState tbl s (pre ++ rest) (i + 1)) = _
    rw [if_neg h0, ih (i + 1) hrest, List.length_cons, Nat.add_comm pre.length 1,
      ← Nat.add_assoc]

theorem firstInState_eq_none (tbl : RequestTable) (s : CU_TASK_STATUS)
    (h : ∀ j, tbl.state j ≠ s) : firstInState tbl s taskEntries 0 = none := by
  have := firstInState_skip tbl s taskEntries [] 0 (fun j _ => h _)
  rw [List.append_nil] at this
  rw [this]
  rfl

theorem firstInState_eq_some (tbl : RequestTable) (s : CU_TASK_STATUS) (k : Nat)
    (e : CU_TASK_Entry) (he : taskEntries[k]? = some e) (hk : tbl.state k = s)
    (hlt : ∀ j < k, tbl.state j ≠ s) :
    firstInState tbl s taskEntries 0 = some (k, e) := by
  obtain ⟨hsplit, hlen⟩ := entries_split k e he
  conv_lhs => rw [hsplit]
  rw [firstInState_skip tbl s _ _ 0 (fun j hj => by
    rw [Nat.zero_add]; exact hlt j (by rw [hlen] at hj; exact hj)), hlen, Nat.zero_add]
  show (if tbl.state k = s then some (k, e) else _) = _
  rw [if_pos hk]

theorem RequestTable.exists_firstPending (t : RequestTable)
    (h : ∃ j, t.state j = .PENDING) : ∃ p, t.FirstPending p := by
  classical
  exact ⟨Nat.find h, Nat.find_spec h, fun j hj => Nat.find_min h hj⟩

/-- C16 (counterexample): with "info" in state `CONTINUE` and "program"
`PENDING`, `CU_TASK_update` invokes the update callback of "info" and leaves
"program" `PENDING`, where the two-step algorithm of the specification invokes
the init callback of "program". -/
theorem C16_running_entry_before_pending_entry :
    (CU_TASK_update (Callbacks.const .CONTINUE)
        (RequestTable.ofEntries ⟨.CONTINUE, 0⟩ ⟨.PENDING, 0⟩ ⟨.NONE, 0⟩) () 1).calls =
      [.update 0 .CU_TASK_INFO_update 1] ∧
    (CU_TASK_update (Callbacks.const .CONTINUE)
        (RequestTable.ofEntries ⟨.CONTINUE, 0⟩ ⟨.PENDING, 0⟩ ⟨.NONE, 0⟩) () 1).tbl =
      RequestTable.ofEntries ⟨.CONTINUE, 0⟩ ⟨.PENDING, 0⟩ ⟨.NONE, 0⟩ ∧
    (spec_update (Callbacks.const .CONTINUE)
        (RequestTable.ofEntries ⟨.CONTINUE, 0⟩ ⟨.PENDING, 0⟩ ⟨.NONE, 0⟩) () 1).calls =
      [.init 1 .CU_TASK_PROGRAM_prepare] := by
  decide

/-- C16 (amended): on every request table in which no `CONTINUE` entry precedes
the first `PENDING` entry, `CU_TASK_update` is the two-step algorithm of the
specification: whenever an entry is `PENDING`, it invokes the init callback of
the first `PENDING` entry, sets it to `CONTINUE` and returns `CONTINUE` without
invoking an update callback, and an update callback is invoked only when no
entry is `PENDING`. -/
theorem C16_update_is_spec_update_when_no_running_before_pending {σ : Type}
    (cb : Callbacks σ) (tbl : RequestTable) (world : σ) (time : Nat)
    (h : ∀ p, tbl.FirstPending p → ∀ i < p, tbl.state i ≠ .CONTINUE) :
    CU_TASK_update cb tbl world time = spec_update cb tbl world time ∧
    (∀ p e, tbl.FirstPending p → taskEntries[p]? = some e →
      CU_TASK_update cb tbl world time =
        ⟨.CONTINUE, tbl.setState p .CONTINUE, cb.init e.initCallback world,
          [.init p e.initCallback]⟩) ∧
    (∀ c ∈ (CU_TASK_update cb tbl world time).calls, c.isUpdate = true →
      ∀ j, tbl.state j ≠ .PENDING) := by
  have hfirst : ∀ p, tbl.FirstPending p → tbl.FirstRunnable p := by
    intro p hp
    refine ⟨tbl.lt_size_of_runnable p (Or.inl hp.1), Or.inl hp.1, ?_⟩
    intro j hj hrun
    rcases hrun with hr | hr
    · exact hp.2 j hj hr
    · exact h p hp j hj hr
  have hpend : ∀ p e, tbl.FirstPending p → taskEntries[p]? = some e →
      CU_TASK_update cb tbl world time =
        ⟨.CONTINUE, tbl.setState p .CONTINUE, cb.init e.initCallback world,
          [.init p e.initCallback]⟩ :=
    fun p e hp he => update_of_pending cb tbl world time p e (hfirst p hp) he hp.1
  by_cases hex : ∃ j, tbl.state j = .PENDING
  · obtain ⟨p, hp⟩ := tbl.exists_firstPending hex
    obtain ⟨e, he⟩ := entry_of_lt p (hfirst p hp).1
    refine ⟨?_, hpend, ?_⟩
    · rw [hpend p e hp he]
      unfold spec_update
      rw [firstInState_eq_some tbl .PENDING p e he hp.1 hp.2]
    · intro c hc hupd
      rw [hpend p e hp he] at hc
      rw [List.mem_singleton] at hc
      rw [hc] at hupd
      cases hupd
  · have hno : ∀ j, tbl.state j ≠ .PENDING := fun j hj => hex ⟨j, hj⟩
    refine ⟨?_, fun p e hp _ => absurd hp.1 (hno p), fun _ _ _ => hno⟩
    unfold spec_update
    rw [firstInState_eq_none tbl .PENDING hno]
    by_cases hrun : ∃ j, (tbl.state j).runnable
    · obtain ⟨k, hk⟩ := tbl.exists_firstRunnable hrun
      obtain ⟨e, he⟩ := entry_of_lt k hk.1
      have hs : tbl.state k = .CONTINUE := by
        rcases hk.2.1 with hs | hs
        · exact absurd hs (hno k)
        · exact hs
      rw [firstInState_eq_some tbl .CONTINUE k e he hs
        (fun j hj hc => hk.2.2 j hj (Or.inr hc))]
      exact update_of_continue cb tbl world time k e hk he hs
    · have hidle : ∀ j, ¬ (tbl.state j).runnable := fun j hj => hrun ⟨j, hj⟩
      rw [firstInState_eq_none tbl .CONTINUE (fun j hj => hidle j (Or.inr hj))]
      exact update_of_idle cb tbl world time hidle

/-- C16 (witness): "info" `DONE`, "program" `PENDING`, "reset" `CONTINUE`: the
first `PENDING` entry is started although a later entry is running. -/
theorem C16_update_is_spec_update_when_no_running_before_pending_witness :
    CU_TASK_update (Callbacks.const .DONE)
        (RequestTable.ofEntries ⟨.DONE, 0⟩ ⟨.PENDING, 0⟩ ⟨.CONTINUE, 0⟩) () 1 =
      ⟨.CONTINUE, (RequestTable.ofEntries ⟨.DONE, 0⟩ ⟨.PENDING, 0⟩ ⟨.CONTINUE, 0⟩).setState 1
        .CONTINUE, (Callbacks.const .DONE).init .CU_TASK_PROGRAM_prepare (),
        [.init 1 .CU_TASK_PROGRAM_prepare]⟩ :=
  (C16_update_is_spec_update_when_no_running_before_pending (Callbacks.const .DONE)
    (RequestTable.ofEntries ⟨.DONE, 0⟩ ⟨.PENDING, 0⟩ ⟨.CONTINUE, 0⟩) () 1
    (by
      intro p hp i hi
      have hp1 : p < taskEntriesSize := RequestTable.lt_size_of_runnable _ p (Or.inl hp.1)
      rw [taskEntriesSize_eq] at hp1
      interval_cases p <;> interval_cases i <;> decide)).2.1
    1 ⟨"program", .CU_TASK_PROGRAM_prepare, .CU_TASK_PROGRAM_update⟩
    ⟨by decide, by decide⟩ (by decide)


/-! ## Requests first, ticks afterwards -/

theorem addTask_none_or_pending (name : String) (option : Int) (tbl t1 : RequestTable)
    (printed : List String) (h : ∀ i, tbl.state i = .NONE ∨ tbl.state i = .PENDING)
    (hadd : CU_TASK_addTask name option tbl = .returned t1 printed) :
    ∀ i, t1.state i = .NONE ∨ t1.state i = .PENDING := by
  cases hidx : taskIndex name with
  | none =>
    rw [addTask_of_unknown name option tbl hidx] at hadd
    cases hadd
  | some k =>
    have hk := taskIndex_lt name k hidx
    rw [addTask_of_index name option tbl k hidx] at hadd
    by_cases hp : tbl.state k = .PENDING
    · rw [if_neg (not_not.2 hp)] at hadd
      cases hadd
      exact h
    · rw [if_pos hp] at hadd
      cases hadd
      intro i
      rw [RequestTable.state_setState tbl k i _ hk]
      by_cases hik : i = k
      · rw [if_pos hik]; exact Or.inr rfl
      · rw [if_neg hik]; exact h i

theorem run_adds_none_or_pending {σ : Type} (cb : Callbacks σ) (adds : List (String × Int)) :
    ∀ s s1 : Sched σ, (∀ i, s.tbl.state i = .NONE ∨ s.tbl.state i = .PENDING) →
      Sched.run cb s (adds.map (fun a => Op.addTask a.1 a.2)) = some s1 →
      ∀ i, s1.tbl.state i = .NONE ∨ s1.tbl.state i = .PENDING := by
  induction adds with
  | nil =>
    intro s s1 h hrun
    simp only [List.map_nil, Sched.run, Option.some.injEq] at hrun
    rw [← hrun]; exact h
  | cons a adds ih =>
    intro s s1 h hrun
    simp only [List.map_cons, Sched.run, Sched.step] at hrun
    cases hadd : CU_TASK_addTask a.1 a.2 s.tbl with
    | exited c t p => rw [hadd] at hrun; cases hrun
    | returned t p =>
      rw [hadd] at hrun
      exact ih _ s1 (addTask_none_or_pending a.1 a.2 s.tbl t p h hadd) hrun

theorem tick_named {σ : Type} (cb : Callbacks σ) (s : Sched σ) (time : Nat)
    (h : ∀ i, (s.tbl.state i).runnable ∨ (s.tbl.state i).idle) :
    ∀ i, ((s.tick cb time).tbl.state i).runnable ∨ ((s.tick cb time).tbl.state i).idle := by
  rcases tick_summary cb s time with ⟨_, htbl, _, _⟩ | ⟨k, _, hk, _, _, htbl, _⟩ |
      ⟨k, _, st, hk, _, _, hst, htbl, _⟩
  · rw [htbl]; exact h
  · intro i
    rw [htbl, RequestTable.state_setState s.tbl k i _ hk.1]
    by_cases hik : i = k
    · rw [if_pos hik]; exact Or.inl (Or.inr rfl)
    · rw [if_neg hik]; exact h i
  · intro i
    rw [htbl, RequestTable.state_setState s.tbl k i _ hk.1]
    by_cases hik : i = k
    · rw [if_pos hik]
      rcases hst with h1 | h1 | h1 <;> rw [h1] <;> decide
    · rw [if_neg hik]; exact h i

theorem ticks_continueFirst_named {σ : Type} (cb : Callbacks σ) (times : List Nat) :
    ∀ s : Sched σ, s.tbl.ContinueFirst →
      (∀ i, (s.tbl.state i).runnable ∨ (s.tbl.state i).idle) →
      (s.ticks cb times).tbl.ContinueFirst ∧
      ∀ i, ((s.ticks cb times).tbl.state i).runnable ∨
        ((s.ticks cb times).tbl.state i).idle := by
  induction times with
  | nil => intro s h1 h2; exact ⟨h1, h2⟩
  | cons t ts ih =>
    intro s h1 h2
    exact ih (s.tick cb t) (update_continueFirst cb s.tbl s.world t h1)
      (tick_named cb s t h2)

/-- C20: when every `CU_TASK_addTask` call is made before the first
`CU_TASK_update` call, starting from the zeroed request table, then after any
number of `CU_TASK_update` calls, whatever the callbacks return, at most one
entry is in state `CONTINUE`, and every entry before an entry in state
`CONTINUE` is `NONE`, `DONE` or `ERROR`. -/
theorem C20_requests_before_ticks_keep_one_running {σ : Type} (cb : Callbacks σ)
    (world : σ) (adds : List (String × Int)) (times : List Nat) (s : Sched σ)
    (hadds : Sched.run cb (Sched.start world) (adds.map (fun a => Op.addTask a.1 a.2)) =
      some s) :
    (s.ticks cb times).tbl.countState .CONTINUE ≤ 1 ∧
    ∀ i, (s.ticks cb times).tbl.state i = .CONTINUE →
      ∀ j < i, ((s.ticks cb times).tbl.state j).idle := by
  have hstart : ∀ i, (Sched.start world).tbl.state i = .NONE ∨
      (Sched.start world).tbl.state i = .PENDING :=
    fun i => Or.inl (RequestTable.zeroed_state i)
  have hs := run_adds_none_or_pending cb adds (Sched.start world) s hstart hadds
  have hcf : s.tbl.ContinueFirst := by
    intro i hi
    rcases hs i with h | h <;> rw [h] at hi <;> cases hi
  have hnamed : ∀ i, (s.tbl.state i).runnable ∨ (s.tbl.state i).idle := by
    intro i
    rcases hs i with h | h <;> rw [h] <;> decide
  obtain ⟨h1, h2⟩ := ticks_continueFirst_named cb times s hcf hnamed
  refine ⟨h1.count_le_one, ?_⟩
  intro i hi j hj
  rcases h2 j with h | h
  · exact absurd h (h1 i hi j hj)
  · exact h

/-- C20 (witness): "reset" and "info" requested, then three ticks with the
update callbacks reporting `DONE`: "info" is `DONE` and "reset" is running. -/
theorem C20_requests_before_ticks_keep_one_running_witness :
    ((Sched.mk (RequestTable.ofEntries ⟨.PENDING, 0⟩ ⟨.NONE, 0⟩ ⟨.PENDING, 0⟩) ()
        []).ticks (Callbacks.const .DONE) [1, 1, 1]).tbl =
      RequestTable.ofEntries ⟨.DONE, 0⟩ ⟨.NONE, 0⟩ ⟨.CONTINUE, 0⟩ ∧
    ((Sched.mk (RequestTable.ofEntries ⟨.PENDING, 0⟩ ⟨.NONE, 0⟩ ⟨.PENDING, 0⟩) ()
        []).ticks (Callbacks.const .DONE) [1, 1, 1]).tbl.countState .CONTINUE ≤ 1 :=
  ⟨by decide, (C20_requests_before_ticks_keep_one_running (Callbacks.const .DONE) ()
    [("reset", 0), ("info", 0)] [1, 1, 1] _ rfl).1⟩

end CU_TASK

namespace KinetekUtil

/-! ## The bounded trace log -/

theorem trace_push_last (l : List String) (e : String) :
    trace_push (l.drop (l.length - MAX_QUEUE_SIZE)) e =
      (l ++ [e]).drop ((l ++ [e]).length - MAX_QUEUE_SIZE) := by
  have hM : MAX_QUEUE_SIZE = 16 := rfl
  unfold trace_push
  rw [List.length_drop, List.length_append, List.length_singleton, hM]
  by_cases hlt : l.length < 16
  · have h1 : l.length - 16 = 0 := by omega
    have h2 : l.length + 1 - 16 = 0 := by omega
    rw [h1, h2, if_neg (by omega)]
    rfl
  · have h1 : l.length - (l.length - 16) = 16 := by omega
    have h2 : l.length + 1 - 16 = l.length - 16 + 1 := by omega
    rw [if_pos h1, List.tail_drop, h2,
      List.drop_append_of_le_length (by omega)]

theorem foldl_trace_push_last (es pre : List String) :
    es.foldl trace_push (pre.drop (pre.length - MAX_QUEUE_SIZE)) =
      (pre ++ es).drop ((pre ++ es).length - MAX_QUEUE_SIZE) := by
  induction es generalizing pre with
  | nil => rw [List.append_nil]; rfl
  | cons e es ih =>
    rw [List.foldl_cons, trace_push_last, ih (pre ++ [e]), List.append_assoc]
    rfl

theorem send_frame_log (env : TxEnv) (h : SocketCanHelper) (can_id : Nat) (data : List Nat)
    (data_len : Nat) :
    (send_frame env h can_id data data_len).helper.mini_can_log =
      (send_frame env h can_id data data_len).appended.foldl trace_push h.mini_can_log := by
  unfold send_frame
  simp only
  split_ifs <;> rfl

theorem get_frame_log (env : RxEnv) (h : SocketCanHelper) (can_id : Nat) (wait_time : Int)
    (can_id_mask : Nat) :
    (get_frame env h can_id wait_time can_id_mask).helper.mini_can_log =
      (get_frame env h can_id wait_time can_id_mask).appended.foldl trace_push
        h.mini_can_log := by
  unfold get_frame
  simp only
  split_ifs <;> rfl

theorem exec_log (h : SocketCanHelper) (c : BusCall) :
    (c.exec h).helper.mini_can_log = (c.exec h).appended.foldl trace_push h.mini_can_log := by
  cases c with
  | send env can_id data data_len => exact send_frame_log env h can_id data data_len
  | receive env can_id wait_time can_id_mask =>
    exact get_frame_log env h can_id wait_time can_id_mask

theorem runCalls_log (calls : List BusCall) :
    ∀ (h : SocketCanHelper) (pre : List String),
      h.mini_can_log = pre.drop (pre.length - MAX_QUEUE_SIZE) →
      (runCalls h calls).helper.mini_can_log =
        (pre ++ (runCalls h calls).appended).drop
          ((pre ++ (runCalls h calls).appended).length - MAX_QUEUE_SIZE) := by
  induction calls with
  | nil =>
    intro h pre hpre
    simp only [runCalls, List.append_nil]
    exact hpre
  | cons c cs ih =>
    intro h pre hpre
    have hstep : (c.exec h).helper.mini_can_log =
        (pre ++ (c.exec h).appended).drop
          ((pre ++ (c.exec h).appended).length - MAX_QUEUE_SIZE) := by
      rw [exec_log, hpre, foldl_trace_push_last]
    unfold runCalls
    simp only
    split
    · exact hstep
    · simp only
      rw [← List.append_assoc]
      exact ih _ _ hstep

theorem runCalls_log_of_empty (h0 : SocketCanHelper) (calls : List BusCall)
    (hempty : h0.mini_can_log = []) :
    (runCalls h0 calls).helper.mini_can_log =
      (runCalls h0 calls).appended.drop ((runCalls h0 calls).appended.length - 16) := by
  have h := runCalls_log calls h0 [] (by rw [hempty]; rfl)
  rw [List.nil_append] at h
  exact h

theorem send_frame_appended (env : TxEnv) (h : SocketCanHelper) (can_id : Nat)
    (data : List Nat) (data_len : Nat)
    (hret : (send_frame env h can_id data data_len).exit_code = none) :
    (send_frame env h can_id data data_len).appended =
      [tx_entry can_id data data_len env.elapsed] := by
  unfold send_frame at hret ⊢
  simp only at hret ⊢
  split_ifs at hret ⊢ <;> rfl

theorem get_frame_appended (env : RxEnv) (h : SocketCanHelper) (can_id : Nat)
    (wait_time : Int) (can_id_mask : Nat)
    (hret : (get_frame env h can_id wait_time can_id_mask).exit_code = none)
    (hrx : 0 ≤ (env.CO_CANrxWait ⟨0, 0, List.replicate 8 0⟩).1) :
    (get_frame env h can_id wait_time can_id_mask).appended =
      [rx_entry (env.CO_CANrxWait ⟨0, 0, List.replicate 8 0⟩).2 env.elapsed] := by
  unfold get_frame at hret ⊢
  simp only at hret ⊢
  split_ifs at hret ⊢ <;> first | rfl | omega

theorem exec_appended (h : SocketCanHelper) (c : BusCall) (hs : c.succeeds h = true) :
    (c.exec h).appended = [c.entry] ∧ (c.exec h).exit_code = none := by
  cases c with
  | send env can_id data data_len =>
    have hret : (send_frame env h can_id data data_len).exit_code = none := by
      simpa [BusCall.succeeds] using hs
    exact ⟨send_frame_appended env h can_id data data_len hret, hret⟩
  | receive env can_id wait_time can_id_mask =>
    have hboth : (get_frame env h can_id wait_time can_id_mask).exit_code = none ∧
        0 ≤ (env.CO_CANrxWait ⟨0, 0, List.replicate 8 0⟩).1 := by
      simpa [BusCall.succeeds] using hs
    exact ⟨get_frame_appended env h can_id wait_time can_id_mask hboth.1 hboth.2, hboth.1⟩

theorem runCalls_appended (calls : List BusCall) :
    ∀ h : SocketCanHelper, allSucceed h calls = true →
      (runCalls h calls).appended = calls.map BusCall.entry ∧
      (runCalls h calls).exit_code = none := by
  induction calls with
  | nil => intro h _; exact ⟨rfl, rfl⟩
  | cons c cs ih =>
    intro h hok
    simp only [allSucceed, Bool.and_eq_true] at hok
    obtain ⟨happ, hexit⟩ := exec_appended h c hok.1
    obtain ⟨h1, h2⟩ := ih (c.exec h).helper hok.2
    unfold runCalls
    simp only [hexit, happ, h1, h2, List.map_cons, List.singleton_append, and_self]

/-- C11: starting from an empty `mini_can_log`, after `n` successful calls of
`send_frame` and `get_frame`, in any mix, the log holds exactly the trace
entries of the last `min(n, 16)` calls, in the order of the calls; its length
is `min(n, 16)`.  And after any sequence of calls, successful or not, the
length of the log does not exceed 16. -/
theorem C11_trace_log_keeps_last_16 (h0 : SocketCanHelper) (calls : List BusCall)
    (hempty : h0.mini_can_log = []) (hok : allSucceed h0 calls = true) :
    (runCalls h0 calls).helper.mini_can_log =
      (calls.map BusCall.entry).drop (calls.length - 16) ∧
    (runCalls h0 calls).helper.mini_can_log.length = min calls.length 16 ∧
    (runCalls h0 calls).exit_code = none ∧
    (∀ others : List BusCall, (runCalls h0 others).helper.mini_can_log.length ≤ 16) := by
  obtain ⟨happ, hexit⟩ := runCalls_appended calls h0 hok
  have h := runCalls_log_of_empty h0 calls hempty
  rw [happ, List.length_map] at h
  refine ⟨h, ?_, hexit, ?_⟩
  · rw [h, List.length_drop, List.length_map]
    omega
  · intro others
    rw [runCalls_log_of_empty h0 others hempty, List.length_drop]
    omega

/-- C11 (witness): twenty successful calls, `send_frame` and `get_frame` in
turn, with the identifiers `0 .. 19`; the log holds the sixteen entries of the
identifiers `4 .. 19`, that is of the fifth to the twentieth call, and starts
with the entry of the transmitted frame `4`. -/
theorem C11_trace_log_keeps_last_16_witness :
    (runCalls SocketCanHelper.fresh
        ((List.range 20).map (fun i =>
          if i % 2 = 0 then BusCall.send (TxEnv.simple 0 "0.1") i [i] 1
          else BusCall.receive (RxEnv.simple 0 ⟨i, 1, [i, 0, 0, 0, 0, 0, 0, 0]⟩ "0.2") i 5
            0x7FF))).helper.mini_can_log =
      ((List.range 20).map (fun i =>
          if i % 2 = 0 then tx_entry i [i] 1 "0.1"
          else rx_entry ⟨i, 1, [i, 0, 0, 0, 0, 0, 0, 0]⟩ "0.2")).drop 4 ∧
    (runCalls SocketCanHelper.fresh
        ((List.range 20).map (fun i =>
          if i % 2 = 0 then BusCall.send (TxEnv.simple 0 "0.1") i [i] 1
          else BusCall.receive (RxEnv.simple 0 ⟨i, 1, [i, 0, 0, 0, 0, 0, 0, 0]⟩ "0.2") i 5
            0x7FF))).helper.mini_can_log.length = 16 ∧
    (runCalls SocketCanHelper.fresh
        ((List.range 20).map (fun i =>
          if i % 2 = 0 then BusCall.send (TxEnv.simple 0 "0.1") i [i] 1
          else BusCall.receive (RxEnv.simple 0 ⟨i, 1, [i, 0, 0, 0, 0, 0, 0, 0]⟩ "0.2") i 5
            0x7FF))).helper.mini_can_log.take 2 =
      ["TX\tId: 004\t\tData: 04 \t0.1\r\n",
        "RX\tId: 005\t\tData: 05                      \t0.2\r\n"] :=
  have h := C11_trace_log_keeps_last_16 SocketCanHelper.fresh
    ((List.range 20).map (fun i =>
      if i % 2 = 0 then BusCall.send (TxEnv.simple 0 "0.1") i [i] 1
      else BusCall.receive (RxEnv.simple 0 ⟨i, 1, [i, 0, 0, 0, 0, 0, 0, 0]⟩ "0.2") i 5
        0x7FF)) rfl (by decide)
  ⟨h.1.trans (by decide), h.2.1.trans (by decide), by decide⟩

/-! ## Claims about `get_frame` on a timeout and about `send_frame` -/

/-- C12 (evaluation at the failing input): with one entry in the log, a
`get_frame` whose wait ends by timer expiry (`CO_CANrxWait` returns `-1`)
returns with the text "RX, TIME OUT" left in `can_string` but pushes nothing:
`mini_can_log` still holds the one old entry. -/
theorem C12_time_out_entry_not_logged :
    (get_frame (RxEnv.simple (-1) ⟨0, 0, List.replicate 8 0⟩ "0.5")
        { SocketCanHelper.fresh with mini_can_log := ["TX\tId: 001\t\tData: \t0.1\r\n"] }
        0x80 5 0x7FF).helper.mini_can_log = ["TX\tId: 001\t\tData: \t0.1\r\n"] ∧
    (get_frame (RxEnv.simple (-1) ⟨0, 0, List.replicate 8 0⟩ "0.5")
        { SocketCanHelper.fresh with mini_can_log := ["TX\tId: 001\t\tData: \t0.1\r\n"] }
        0x80 5 0x7FF).appended = [] ∧
    (get_frame (RxEnv.simple (-1) ⟨0, 0, List.replicate 8 0⟩ "0.5")
        { SocketCanHelper.fresh with mini_can_log := ["TX\tId: 001\t\tData: \t0.1\r\n"] }
        0x80 5 0x7FF).helper.can_string = "RX\tTIME OUT\r\n" ∧
    (get_frame (RxEnv.simple (-1) ⟨0, 0, List.replicate 8 0⟩ "0.5")
        { SocketCanHelper.fresh with mini_can_log := ["TX\tId: 001\t\tData: \t0.1\r\n"] }
        0x80 5 0x7FF).exit_code = none := by
  decide

theorem take_memcpy (dest src : List Nat) (n : Nat) (h : n ≤ src.length) :
    (memcpy dest src n).take n = src.take n := by
  unfold memcpy
  exact List.take_left' (by rw [List.length_take]; omega)

/-- C13: for a payload of `data_len ≤ 8` bytes, `send_frame` prepares the
transmit buffer by hand (identifier `can_id`, DLC `data_len`, `bufferFull` and
`syncFlag` cleared, no call of `CO_CANtxBufferInit`) when `can_id > 0x7FF`, and
through `CO_CANtxBufferInit(can_module, 0, can_id, 0, data_len, false)` when
`can_id ≤ 0x7FF`; in both cases `CO_CANsend` is called once, and the first
`data_len` data bytes of the buffer handed to it are the payload bytes in
order (on the extended path the copy stays inside an 8-byte data array). -/
theorem C13_send_frame_path_and_payload (env : TxEnv) (h : SocketCanHelper)
    (can_id : Nat) (data : List Nat) (data_len : Nat) (hlen : data_len ≤ 8)
    (hdata : data.length = data_len) :
    (can_id > 0x7FF →
      (send_frame env h can_id data data_len).driver_calls =
        [.CO_CANsend { ident := can_id, DLC := data_len, bufferFull := false,
                       syncFlag := false, data := memcpy h.tx.data data data_len }]) ∧
    (can_id ≤ 0x7FF →
      (send_frame env h can_id data data_len).driver_calls =
        [.CO_CANtxBufferInit 0 can_id 0 data_len false,
          .CO_CANsend { env.CO_CANtxBufferInit h.tx can_id data_len with
            data := memcpy (env.CO_CANtxBufferInit h.tx can_id data_len).data data
              data_len }]) ∧
    (∀ buf, DriverCall.CO_CANsend buf ∈ (send_frame env h can_id data data_len).driver_calls →
      buf.data.take data_len = data) ∧
    (can_id > 0x7FF → h.tx.data.length = 8 →
      (memcpy h.tx.data data data_len).length = 8) := by
  have htake : ∀ dest : List Nat, (memcpy dest data data_len).take data_len = data := by
    intro dest
    rw [take_memcpy dest data data_len (by omega), ← hdata, List.take_length]
  have hcalls : (send_frame env h can_id data data_len).driver_calls =
      if can_id > 0x7FF then
        [.CO_CANsend { ident := can_id, DLC := data_len, bufferFull := false,
                       syncFlag := false, data := memcpy h.tx.data data data_len }]
      else
        [.CO_CANtxBufferInit 0 can_id 0 data_len false,
          .CO_CANsend { env.CO_CANtxBufferInit h.tx can_id data_len with
            data := memcpy (env.CO_CANtxBufferInit h.tx can_id data_len).data data
              data_len }] := by
    unfold send_frame
    simp only
    split_ifs <;> rfl
  refine ⟨fun hid => by rw [hcalls, if_pos hid],
    fun hid => by rw [hcalls, if_neg (by omega)], ?_, ?_⟩
  swap
  · intro _ h8
    unfold memcpy
    rw [List.length_append, List.length_take, List.length_drop]
    omega
  intro buf hbuf
  rw [hcalls] at hbuf
  split at hbuf
  · rw [List.mem_singleton] at hbuf
    cases hbuf
    exact htake _
  · simp only [List.mem_cons, List.mem_singleton, List.not_mem_nil, or_false] at hbuf
    rcases hbuf with hbuf | hbuf
    · cases hbuf
    · cases hbuf
      exact htake _

/-- C13 (witness): the identifiers `0x123`, `0x7FF` (standard path) and `0x800`,
`0x1ABCDEF` (extended path) with a three byte payload. -/
theorem C13_send_frame_path_and_payload_witness :
    (send_frame (TxEnv.simple 0 "0.1") SocketCanHelper.fresh 0x1ABCDEF [0xAA, 0xBB, 0xCC]
        3).driver_calls =
      [.CO_CANsend { ident := 0x1ABCDEF, DLC := 3, bufferFull := false, syncFlag := false,
                     data := [0xAA, 0xBB, 0xCC, 0, 0, 0, 0, 0] }] ∧
    (send_frame (TxEnv.simple 0 "0.1") SocketCanHelper.fresh 0x800 [0xAA, 0xBB, 0xCC]
        3).driver_calls =
      [.CO_CANsend { ident := 0x800, DLC := 3, bufferFull := false, syncFlag := false,
                     data := [0xAA, 0xBB, 0xCC, 0, 0, 0, 0, 0] }] ∧
    (send_frame (TxEnv.simple 0 "0.1") SocketCanHelper.fresh 0x123 [0xAA, 0xBB, 0xCC]
        3).driver_calls =
      [.CO_CANtxBufferInit 0 0x123 0 3 false,
        .CO_CANsend { ident := 0x123, DLC := 3, bufferFull := false, syncFlag := false,
                      data := [0xAA, 0xBB, 0xCC, 0, 0, 0, 0, 0] }] ∧
    (send_frame (TxEnv.simple 0 "0.1") SocketCanHelper.fresh 0x7FF [0xAA, 0xBB, 0xCC]
        3).driver_calls =
      [.CO_CANtxBufferInit 0 0x7FF 0 3 false,
        .CO_CANsend { ident := 0x7FF, DLC := 3, bufferFull := false, syncFlag := false,
                      data := [0xAA, 0xBB, 0xCC, 0, 0, 0, 0, 0] }] :=
  ⟨(C13_send_frame_path_and_payload (TxEnv.simple 0 "0.1") SocketCanHelper.fresh 0x1ABCDEF
      [0xAA, 0xBB, 0xCC] 3 (by decide) rfl).1 (by decide),
    (C13_send_frame_path_and_payload (TxEnv.simple 0 "0.1") SocketCanHelper.fresh 0x800
      [0xAA, 0xBB, 0xCC] 3 (by decide) rfl).1 (by decide),
    (C13_send_frame_path_and_payload (TxEnv.simple 0 "0.1") SocketCanHelper.fresh 0x123
      [0xAA, 0xBB, 0xCC] 3 (by decide) rfl).2.1 (by decide),
    (C13_send_frame_path_and_payload (TxEnv.simple 0 "0.1") SocketCanHelper.fresh 0x7FF
      [0xAA, 0xBB, 0xCC] 3 (by decide) rfl).2.1 (by decide)⟩

/-- C14 (evaluation at the failing input): `send_frame` with `data_len = 9`
copies nine bytes: the buffer handed to `CO_CANsend` holds the ninth payload
byte at position 8, one past the last position, 7, of the 8-byte data array. -/
theorem C14_nine_bytes_copied :
    (send_frame (TxEnv.simple 0 "0.1") SocketCanHelper.fresh 0x800
        [1, 2, 3, 4, 5, 6, 7, 8, 9] 9).driver_calls =
      [.CO_CANsend { ident := 0x800, DLC := 9, bufferFull := false, syncFlag := false,
                     data := [1, 2, 3, 4, 5, 6, 7, 8, 9] }] ∧
    (send_frame (TxEnv.simple 0 "0.1") SocketCanHelper.fresh 0x800
        [1, 2, 3, 4, 5, 6, 7, 8, 9] 9).helper.tx.data[8]? = some 9 ∧
    (send_frame (TxEnv.simple 0 "0.1") SocketCanHelper.fresh 0x800
        [1, 2, 3, 4, 5, 6, 7, 8, 9] 9).helper.tx.data.length = 9 ∧
    SocketCanHelper.fresh.tx.data.length = 8 := by
  decide

/-! ## Claims about `print_mini_log` -/

theorem print_mini_log_loop_length (q : List String) :
    print_mini_log_loop q.length q = (q, []) := by
  induction q with
  | nil => rfl
  | cons x xs ih =>
    show (((x :: xs).headD "" :: (print_mini_log_loop xs.length (x :: xs).tail).1),
      (print_mini_log_loop xs.length (x :: xs).tail).2) = _
    rw [List.tail_cons, ih]
    rfl

/-- C15: `print_mini_log` prints the line announcing the number of entries and
then exactly the entries of `mini_can_log`, oldest first, each once, and leaves
the log empty; a second `print_mini_log` prints no entry. -/
theorem C15_print_mini_log_drains (h : SocketCanHelper) :
    (print_mini_log h).2 =
      ("Last " ++ toString h.mini_can_log.length ++ " messages in CAN trace\r\n") ::
        h.mini_can_log ∧
    (print_mini_log h).1.mini_can_log = [] ∧
    (print_mini_log (print_mini_log h).1).2 = ["Last 0 messages in CAN trace\r\n"] ∧
    (print_mini_log (print_mini_log h).1).1.mini_can_log = [] := by
  have h1 : (print_mini_log h).2 =
      ("Last " ++ toString h.mini_can_log.length ++ " messages in CAN trace\r\n") ::
        h.mini_can_log := by
    unfold print_mini_log
    simp only [print_mini_log_loop_length]
  have h2 : (print_mini_log h).1.mini_can_log = [] := by
    unfold print_mini_log
    simp only [print_mini_log_loop_length]
  have h3 : ∀ g : SocketCanHelper, g.mini_can_log = [] →
      (print_mini_log g).2 = ["Last 0 messages in CAN trace\r\n"] ∧
      (print_mini_log g).1.mini_can_log = [] := by
    intro g hg
    unfold print_mini_log
    simp only [hg, List.length_nil, print_mini_log_loop]
    exact ⟨rfl, trivial⟩
  exact ⟨h1, h2, (h3 _ h2).1, (h3 _ h2).2⟩

/-! ## Claims about the receive trace entry and the timer of `get_frame` -/

theorem hexField_two_length (b : Nat) (hb : b < 256) : (hexField 2 b).length = 2 := by
  have hlen : (hexUpper b).length = 1 ∨ (hexUpper b).length = 2 := by
    unfold hexUpper
    by_cases h16 : b / 16 = 0
    · left
      show (if b / 16 = 0 then hexDigit (b % 16) :: [] else _).length = 1
      rw [if_pos h16]
      rfl
    · right
      obtain ⟨f, hf⟩ := Nat.exists_eq_succ_of_ne_zero (show b ≠ 0 by omega)
      subst hf
      show (if (f + 1) / 16 = 0 then hexDigit ((f + 1) % 16) :: []
        else hexDigitsAux (f + 1) ((f + 1) / 16) (hexDigit ((f + 1) % 16) :: [])).length = 2
      rw [if_neg h16]
      show (if (f + 1) / 16 / 16 = 0 then
          hexDigit ((f + 1) / 16 % 16) :: [hexDigit ((f + 1) % 16)] else _).length = 2
      rw [if_pos (by omega)]
      rfl
  show (padLeft 2 '0' (hexUpper b)).length = 2
  unfold padLeft
  rw [List.length_append, List.length_replicate]
  rcases hlen with h | h <;> rw [h] <;> rfl

theorem format_bytes_from_length (data : List Nat) (hb : ∀ j, data.getD j 0 < 256) (n : Nat) :
    ∀ i, (format_bytes_from data n i).length = 3 * n := by
  induction n with
  | zero => intro i; rfl
  | succ n ih =>
    intro i
    show (hexField 2 (data.getD i 0) ++ " " ++ format_bytes_from data n (i + 1)).length = _
    rw [String.length_append, String.length_append, ih (i + 1),
      hexField_two_length _ (hb i)]
    show 2 + 1 + 3 * n = 3 * (n + 1)
    omega

/-- Width of the payload part of a receive trace entry: 24 characters for a
frame of fewer than 8 bytes, 25 for a frame of 8 bytes. -/
theorem rx_payload_length (msg : CO_CANrxMsg_t) (hb : ∀ j, msg.data.getD j 0 < 256)
    (hdlc : msg.DLC ≤ 8) :
    (rx_payload msg).length = if msg.DLC = 8 then 25 else 24 := by
  unfold rx_payload format_bytes
  rw [String.length_append, format_bytes_from_length msg.data hb]
  show 3 * msg.DLC + (padLeft (3 * (8 - (msg.DLC : Int))) ' ' [' ']).length = _
  unfold padLeft
  rw [List.length_append, List.length_replicate]
  simp only [List.length_singleton]
  split <;> omega

/-- C17 (evaluation at the failing input): for a received frame of 8 bytes the
payload part of the trace entry written by `get_frame` is 25 characters wide,
the 8 byte columns and one more space, while for a frame of 7 bytes it is 24
characters wide. -/
theorem C17_full_frame_payload_is_25_wide :
    (get_frame (RxEnv.simple 0 ⟨0x80, 8, [1, 2, 3, 4, 5, 6, 7, 8]⟩ "0.5")
        SocketCanHelper.fresh 0x80 5 0x7FF).helper.mini_can_log =
      ["RX\tId: 080\t\tData: " ++ "01 02 03 04 05 06 07 08  " ++ "\t0.5\r\n"] ∧
    rx_payload ⟨0x80, 8, [1, 2, 3, 4, 5, 6, 7, 8]⟩ = "01 02 03 04 05 06 07 08  " ∧
    (rx_payload ⟨0x80, 8, [1, 2, 3, 4, 5, 6, 7, 8]⟩).length = 25 ∧
    rx_payload ⟨0x80, 7, [1, 2, 3, 4, 5, 6, 7, 0]⟩ = "01 02 03 04 05 06 07    " ∧
    (rx_payload ⟨0x80, 7, [1, 2, 3, 4, 5, 6, 7, 0]⟩).length = 24 := by
  decide

theorem get_frame_time_out (env : RxEnv) (h : SocketCanHelper) (can_id : Nat)
    (wait_time : Int) (can_id_mask : Nat) :
    (get_frame env h can_id wait_time can_id_mask).helper.time_out =
        wait_time_spec wait_time ∧
      DriverCall.timerfd_settime (wait_time_spec wait_time) ∈
        (get_frame env h can_id wait_time can_id_mask).driver_calls := by
  unfold get_frame
  simp only
  split_ifs <;> exact ⟨rfl, List.mem_cons_self _ _⟩

/-- C18 (counterexample): for `wait_time = 0` the value that `get_frame` hands to
`timerfd_settime` has `it_value` zero in both fields, which disarms the timer
instead of arming it. -/
theorem C18_zero_wait_time_does_not_arm_the_timer :
    (get_frame (RxEnv.simple 0 ⟨0x80, 0, List.replicate 8 0⟩ "0.5") SocketCanHelper.fresh
        0x80 0 0x7FF).driver_calls =
      [.timerfd_settime ⟨⟨0, 0⟩, ⟨0, 0⟩⟩, .CO_CANrxBufferInit 0 0x80 0x7FF 0,
        .CO_CANrxWait] ∧
    ¬ (get_frame (RxEnv.simple 0 ⟨0x80, 0, List.replicate 8 0⟩ "0.5") SocketCanHelper.fresh
        0x80 0 0x7FF).helper.time_out.arms_one_shot := by
  decide

/-- C18 (amended): for every `wait_time` with `0 < wait_time < 2^31`, `get_frame`
calls `timerfd_settime` with the value it stores in `time_out`, and that value
arms a one-shot timer of exactly `wait_time` milliseconds:
`tv_sec = wait_time / 1000` and `tv_nsec = (wait_time % 1000) * 1000000`, so
that `tv_sec * 10^9 + tv_nsec = wait_time * 10^6` and `0 ≤ tv_nsec < 10^9`; the
product computed for `tv_nsec` is within the range of a 32-bit `int`; and both
interval fields are `0`. -/
theorem C18_timer_armed_with_wait_time (env : RxEnv) (h : SocketCanHelper) (can_id : Nat)
    (wait_time : Int) (can_id_mask : Nat) (h0 : 0 < wait_time) (_h31 : wait_time < 2 ^ 31) :
    DriverCall.timerfd_settime
        (get_frame env h can_id wait_time can_id_mask).helper.time_out ∈
      (get_frame env h can_id wait_time can_id_mask).driver_calls ∧
    (get_frame env h can_id wait_time can_id_mask).helper.time_out.arms_one_shot ∧
    (get_frame env h can_id wait_time can_id_mask).helper.time_out.it_value.tv_sec =
      wait_time / 1000 ∧
    (get_frame env h can_id wait_time can_id_mask).helper.time_out.it_value.tv_nsec =
      wait_time % 1000 * 1000000 ∧
    (get_frame env h can_id wait_time can_id_mask).helper.time_out.it_value.tv_sec * 10 ^ 9 +
        (get_frame env h can_id wait_time can_id_mask).helper.time_out.it_value.tv_nsec =
      wait_time * 10 ^ 6 ∧
    0 ≤ (get_frame env h can_id wait_time can_id_mask).helper.time_out.it_value.tv_nsec ∧
    (get_frame env h can_id wait_time can_id_mask).helper.time_out.it_value.tv_nsec <
      10 ^ 9 ∧
    (-(2 ^ 31) ≤ Int.tmod wait_time 1000 * 1000000 ∧
      Int.tmod wait_time 1000 * 1000000 < 2 ^ 31) ∧
    (get_frame env h can_id wait_time can_id_mask).helper.time_out.it_interval = ⟨0, 0⟩ := by
  obtain ⟨hto, hcall⟩ := get_frame_time_out env h can_id wait_time can_id_mask
  rw [hto]
  have hnn : 0 ≤ wait_time := Int.le_of_lt h0
  have hdiv : Int.tdiv wait_time 1000 = wait_time / 1000 :=
    Int.tdiv_eq_ediv hnn (by decide)
  have hmod : Int.tmod wait_time 1000 = wait_time % 1000 :=
    Int.tmod_eq_emod hnn (by decide)
  have hwrap : int32_wrap (wait_time % 1000 * 1000000) = wait_time % 1000 * 1000000 := by
    unfold int32_wrap
    omega
  have hsec : (wait_time_spec wait_time).it_value.tv_sec = wait_time / 1000 := hdiv
  have hnsec : (wait_time_spec wait_time).it_value.tv_nsec = wait_time % 1000 * 1000000 := by
    show int32_wrap (Int.tmod wait_time 1000 * 1000000) = _
    rw [hmod, hwrap]
  have harm : (wait_time_spec wait_time).arms_one_shot := by
    refine ⟨?_, rfl⟩
    intro hzero
    have h1 : (wait_time_spec wait_time).it_value.tv_sec = 0 := by rw [hzero]
    have h2 : (wait_time_spec wait_time).it_value.tv_nsec = 0 := by rw [hzero]
    rw [hsec] at h1
    rw [hnsec] at h2
    omega
  refine ⟨hcall, harm, hsec, hnsec, ?_, ?_, ?_, ?_, rfl⟩
  · rw [hsec, hnsec]; omega
  · rw [hnsec]; omega
  · rw [hnsec]; omega
  · rw [hmod]; constructor <;> omega

/-- C18 (witness): a wait of 1500 ms is one second and 500000000 ns, and a wait
of 1 ms is 1000000 ns; both values arm the timer. -/
theorem C18_timer_armed_with_wait_time_witness :
    (get_frame (RxEnv.simple 0 ⟨0x80, 0, List.replicate 8 0⟩ "0.5") SocketCanHelper.fresh
        0x80 1500 0x7FF).helper.time_out = ⟨⟨0, 0⟩, ⟨1, 500000000⟩⟩ ∧
    (get_frame (RxEnv.simple 0 ⟨0x80, 0, List.replicate 8 0⟩ "0.5") SocketCanHelper.fresh
        0x80 1500 0x7FF).helper.time_out.arms_one_shot ∧
    (get_frame (RxEnv.simple 0 ⟨0x80, 0, List.replicate 8 0⟩ "0.5") SocketCanHelper.fresh
        0x80 1 0x7FF).helper.time_out = ⟨⟨0, 0⟩, ⟨0, 1000000⟩⟩ ∧
    (get_frame (RxEnv.simple 0 ⟨0x80, 0, List.replicate 8 0⟩ "0.5") SocketCanHelper.fresh
        0x80 1 0x7FF).helper.time_out.arms_one_shot :=
  ⟨by decide,
    (C18_timer_armed_with_wait_time (RxEnv.simple 0 ⟨0x80, 0, List.replicate 8 0⟩ "0.5")
      SocketCanHelper.fresh 0x80 1500 0x7FF (by decide) (by decide)).2.1,
    by decide,
    (C18_timer_armed_with_wait_time (RxEnv.simple 0 ⟨0x80, 0, List.replicate 8 0⟩ "0.5")
      SocketCanHelper.fresh 0x80 1 0x7FF (by decide) (by decide)).2.1⟩

end KinetekUtil

namespace CU_COMMAND
open CU_TASK

/-! ## The task names requested by the command line -/

theorem program_test_always_decimal (arg : String) :
    strlen arg < 3 ∨ strcmp arg "0x" ≠ 0 := by
  by_cases h : strlen arg < 3
  · exact Or.inl h
  · right
    intro hc
    rw [(strcmp_eq_zero_iff arg "0x").1 hc] at h
    exact h (by decide)

/-- C21 (evaluation at the failing input): for the option `-p` the test in
`parse_opt` is `strcmp(arg, "0x")`, not `strncmp(arg, "0x", 2)` as for `-n` and
`-s`, so every argument is read as decimal from its first character; an
argument of length at least 3 that starts with "0x" is read as hexadecimal from
its third character by `-n` only.  With `strtol` of the C standard the argument
"0x10" gives programID `0`, and nodeID `16`. -/
theorem C21_program_id_is_always_read_as_decimal {τ : Type} (env : Libc)
    (addTask : String → Int → τ → AddTaskEnd τ) (arg : String) (cmd : CU_TaskDetails)
    (tbl : τ) :
    parse_opt env addTask (key_of 'p') arg cmd tbl =
      .returned 0 { cmd with programID := env.strtol (from_index arg 0) 10 } tbl [] ∧
    (3 ≤ strlen arg → arg.data.take 2 = ['0', 'x'] →
      parse_opt env addTask (key_of 'n') arg cmd tbl =
        .returned 0 { cmd with nodeID := env.strtol (from_index arg 2) 16 } tbl []) ∧
    parse_opt Libc.standard addTask (key_of 'p') "0x10" cmd tbl =
      .returned 0 { cmd with programID := 0 } tbl [] ∧
    parse_opt Libc.standard addTask (key_of 'n') "0x10" cmd tbl =
      .returned 0 { cmd with nodeID := 16 } tbl [] := by
  have hp : ∀ (e : Libc) (a : String), parse_opt e addTask (key_of 'p') a cmd tbl =
      .returned 0 { cmd with programID := e.strtol (from_index a 0) 10 } tbl [] := by
    intro e a
    have hkey : parse_opt e addTask (key_of 'p') a cmd tbl =
        if strlen a < 3 ∨ strcmp a "0x" ≠ 0 then
          .returned 0 { cmd with programID := e.strtol (from_index a 0) 10 } tbl []
        else
          .returned 0 { cmd with programID := e.strtol (from_index a 2) 16 } tbl [] := rfl
    rw [hkey, if_pos (program_test_always_decimal a)]
  have hn : ∀ (e : Libc) (a : String), 3 ≤ strlen a → a.data.take 2 = ['0', 'x'] →
      parse_opt e addTask (key_of 'n') a cmd tbl =
        .returned 0 { cmd with nodeID := e.strtol (from_index a 2) 16 } tbl [] := by
    intro e a hlen hpre
    have hkey : parse_opt e addTask (key_of 'n') a cmd tbl =
        if strlen a < 3 ∨ strncmp a "0x" 2 ≠ 0 then
          .returned 0 { cmd with nodeID := e.strtol (from_index a 0) 10 } tbl []
        else
          .returned 0 { cmd with nodeID := e.strtol (from_index a 2) 16 } tbl [] := rfl
    have hcmp : strncmp a "0x" 2 = 0 := by
      unfold strncmp
      rw [hpre]
      decide
    rw [hkey, if_neg (by rw [hcmp]; omega)]
  refine ⟨hp env arg, hn env arg, ?_, ?_⟩
  · rw [hp Libc.standard "0x10"]
    have : Libc.standard.strtol (from_index "0x10" 0) 10 = 0 := by decide
    rw [this]
  · rw [hn Libc.standard "0x10" (by decide) (by decide)]
    have : Libc.standard.strtol (from_index "0x10" 2) 16 = 16 := by decide
    rw [this]

end CU_COMMAND
